import Mathlib

/-!
Verification of the tsp-compiler front end (TaleSpinner language compiler).

This file gives a shallow embedding, in Lean, of the parts of the compiler
that the checked properties are about:

- the cursor over the token stream (Cursor.ts) and the macro-header
  fragment parsers (Parser.ts: tryInlineBody, parseMacroConditionals,
  parseMacroSettings, parseCommaSeparatedValues, and the header loop of
  parseMacro and parseOptionMacro);
- the option registry (Options.ts) and the option-macro gate
  (Parser.assertOptionMacro, the head of Parser.parseOptionMacro);
- the reference-map combinator (Base.combineObjectsUnique) and its uses;
- the verifier rules (Verification.verifyCommandSingularity,
  verifyOptionPresence, checkValidRval, verifyReferences rval branch,
  createVariableReference, verifyInitializedGlobalVariables);
- the whitespace/flow normalizer (WhitespaceManagement.ts) together with
  the flow assignments of the grammar table (Definitions.ts).

JavaScript strings are modelled as Lean strings; the regular-expression
trims (replace of leading or trailing whitespace runs, String.trim) are
modelled by explicit recursions over the character list, with
Char.isWhitespace standing for the \s class.  Thrown TspError values are
modelled with Except; the global errorList is modelled by returning the
list of appended diagnostics.
-/

/-- Model of JavaScript String.prototype.toLowerCase restricted to the
token alphabet: lower-case every character. -/
def jsToLower (s : String) : String := String.mk (s.data.map Char.toLower)

/-- Drop the leading whitespace run of a character list: the effect of
the replacement of /^\s+/ by the empty string. -/
def jsTrimLeftList : List Char → List Char
  | [] => []
  | c :: cs => if c.isWhitespace then jsTrimLeftList cs else c :: cs

/-- Drop the trailing whitespace run of a character list: the effect of
the replacement of /\s+$/ by the empty string. -/
def jsTrimRightList : List Char → List Char
  | [] => []
  | c :: cs =>
    match jsTrimRightList cs with
    | [] => if c.isWhitespace then [] else [c]
    | r => c :: r

/-- Model of the JavaScript replace of /^\s+/ by the empty string. -/
def jsTrimLeft (s : String) : String := String.mk (jsTrimLeftList s.data)

/-- Model of the JavaScript replace of /\s+$/ by the empty string. -/
def jsTrimRight (s : String) : String := String.mk (jsTrimRightList s.data)

/-- Model of JavaScript String.prototype.trim: both ends. -/
def jsTrim (s : String) : String := String.mk (jsTrimRightList (jsTrimLeftList s.data))

/-- Decimal digit test used by the numeric model. -/
def isDigitChar (c : Char) : Bool := c.isDigit

/-- Character list shaped as digits optionally followed by a decimal
point and digits (digits+ [. digits*] or . digits+). -/
def decimalShape (l : List Char) : Bool :=
  let ds := l.takeWhile isDigitChar
  let rest := l.dropWhile isDigitChar
  match rest with
  | [] => ds ≠ []
  | c :: rest2 =>
    if c = '.' then (ds ≠ [] || rest2 ≠ []) && rest2.all isDigitChar
    else false

/-- Model of the JavaScript test isNaN(Number(s)) being false, on the
decimal fragment of the Number grammar: Number trims whitespace, maps the
empty string to 0 (so it counts as numeric), accepts an optional sign and
a decimal literal.  Hexadecimal, binary, exponent and Infinity forms do
not occur in token values and are not modelled. -/
def jsIsNumeric (s : String) : Bool :=
  let t := (jsTrim s).data
  match t with
  | [] => true
  | c :: rest =>
    if c = '+' || c = '-' then decimalShape rest
    else decimalShape t

/-- Severity channel of an accumulated diagnostic (Errors.ts errorType). -/
inductive ErrType where
  | error
  | warning
  | info
deriving DecidableEq, Repr

/-- One record of the accumulated diagnostic list (Errors.ts errorList
entries: file, line, message, severity). -/
structure Diag where
  file : String
  line : Nat
  msg : String
  etype : ErrType
deriving DecidableEq, Repr

/-- The typed error thrown for fatal conditions (Errors.ts TspError). -/
structure TspError where
  msg : String
deriving DecidableEq, Repr

/-- Build the TspError produced by Logger.cmderr: file, line and message. -/
def cmderrE (file : String) (line : Nat) (msg : String) : TspError :=
  TspError.mk (file ++ ":" ++ toString line ++ " " ++ msg)

/-- Diagnostic appended by Errors.addError: severity defaults to error. -/
def addErrorD (file : String) (line : Nat) (msg : String) : Diag :=
  Diag.mk file line msg ErrType.error

/-- Diagnostic appended by Errors.addWarning: addError with severity warning. -/
def addWarningD (file : String) (line : Nat) (msg : String) : Diag :=
  Diag.mk file line msg ErrType.warning

/-- Token kinds (TokenTypes.ts enum TokenType), restricted to the kinds the
embedded functions inspect. -/
inductive TokenType where
  | ENTITY_START
  | ENTITY_TYPE
  | ENTITY_PARAM_DELIM
  | ENTITY_PARAM_ASSIGN
  | ENTITY_STATE_DELIM
  | ENTITY_STATE_ASSIGN
  | ENTITY_END
  | SET_OPEN
  | SET_CLOSE
  | MACRO_OPEN
  | MACRO_CLOSE
  | MACRO_SETTING
  | MACRO_SETTING_DELIM
  | MACRO_SETTING_ASSIGN
  | MACRO_SETTING_END
  | MACRO_END
  | OPTION_OPEN
  | OPTION_CLOSE
  | LINE_COMMENT
  | NEWLINES
  | WHITESPACE
  | WORD
  | PHRASE
  | PARAGRAPH
  | TO_STRING
  | NUMBER
  | BOOLEAN
  | SCENERY_DELIMITER
  | ENTITY_REF_DELIMITER
  | HOTLINK_OPEN
  | INLINE_DELIM
  | ITEM_OPEN
  | LOGOP
  | RELOP
  | ASSIGNOP
  | EOF
deriving DecidableEq, Repr

/-- One token produced by the Lexer (Lexer.ts TokenData): kind, literal
value, source line.  The char position is not inspected by the embedded
functions and is omitted. -/
structure TokenData where
  type : TokenType
  value : String
  line : Nat
deriving DecidableEq, Repr

/-- Placeholder token used to totalize out-of-range reads that the
JavaScript clamps (Cursor.lookAhead). -/
def dummyToken : TokenData := TokenData.mk TokenType.EOF "" 0

/-- The token cursor (Cursor.ts): the token list and the current index. -/
structure Cursor where
  tokens : List TokenData
  index : Nat
deriving DecidableEq, Repr

/-- Read of tokens[index] (Cursor.peek with offset 0).  Callers guard the
range through isAtEnd, which raises on an out-of-range index first. -/
def Cursor.peekD (c : Cursor) : TokenData := c.tokens.getD c.index dummyToken

/-- Cursor.isAtEnd: raises a TspError when the index passed the end of
the list, otherwise reports whether the current token is EOF. -/
def Cursor.isAtEnd (c : Cursor) : Except TspError Bool :=
  if c.tokens.length ≤ c.index then
    Except.error (TspError.mk "Cursor is beyond the end of the token list.")
  else
    Except.ok (c.peekD.type == TokenType.EOF)

/-- Cursor.check: false at EOF, else whether the current token kind is one
of the given kinds (the source iterates the kinds and compares each). -/
def Cursor.check (c : Cursor) (types : List TokenType) : Except TspError Bool :=
  match c.isAtEnd with
  | Except.error e => Except.error e
  | Except.ok atEnd =>
    if atEnd then Except.ok false
    else Except.ok (types.contains c.peekD.type)

/-- Cursor.advance: return the current token, move the index forward
unless at EOF, and lower-case the returned value unless the token is a
PARAGRAPH.  The in-place update of the stored token that the JavaScript
also performs is observationally irrelevant to the embedded callers and
is not modelled. -/
def Cursor.advance (c : Cursor) : Except TspError (TokenData × Cursor) :=
  let result := c.peekD
  match c.isAtEnd with
  | Except.error e => Except.error e
  | Except.ok atEnd =>
    let cNext := if atEnd then c else Cursor.mk c.tokens (c.index + 1)
    let result :=
      if result.type == TokenType.PARAGRAPH then result
      else TokenData.mk result.type (jsToLower result.value) result.line
    Except.ok (result, cNext)

/-- Cursor.match (renamed: match is a Lean keyword): consume the current
token when its kind is one of the given kinds; report whether it did. -/
def Cursor.matchT (c : Cursor) (types : List TokenType) : Except TspError (Bool × Cursor) :=
  match c.check types with
  | Except.error e => Except.error e
  | Except.ok b =>
    if b then
      match c.advance with
      | Except.error e => Except.error e
      | Except.ok (_, c2) => Except.ok (true, c2)
    else Except.ok (false, c)

/-- Cursor.consume: consume a token of the expected kind or raise the
cursor error naming the expectation. -/
def Cursor.consume (c : Cursor) (message : String) (type : TokenType) :
    Except TspError (TokenData × Cursor) :=
  match c.check [type] with
  | Except.error e => Except.error e
  | Except.ok b =>
    if b then c.advance
    else Except.error (TspError.mk ("Expecting (" ++ message ++ "), but found another token"))

/-- Cursor.consumeOneOf: consume the first matching kind or raise. -/
def Cursor.consumeOneOf (c : Cursor) (message : String) (types : List TokenType) :
    Except TspError (TokenData × Cursor) :=
  match types with
  | [] => Except.error (TspError.mk ("Expecting one of (" ++ message ++ "), but found another token"))
  | t :: rest =>
    match c.check [t] with
    | Except.error e => Except.error e
    | Except.ok b =>
      if b then c.advance
      else c.consumeOneOf message rest

/-- Cursor.lookAhead: the token at the given offset, clamped to the last
token when the offset passes the end of the list. -/
def Cursor.lookAhead (c : Cursor) (offset : Nat) : TokenData :=
  if c.tokens.length ≤ c.index + offset then c.tokens.getD (c.tokens.length - 1) dummyToken
  else c.tokens.getD (c.index + offset) dummyToken

/-- Cursor.lookBehind with the default offset -1: the token before the
current one (callers reach it only after at least one consume). -/
def Cursor.lookBehindD (c : Cursor) : TokenData := c.tokens.getD (c.index - 1) dummyToken

/-- Value of a settings or flags entry after type coercion (the JavaScript
stores a string, a boolean or a number; a numeric value is modelled by its
source text). -/
inductive SettingVal where
  | str (s : String)
  | bool (b : Bool)
  | num (source : String)
deriving DecidableEq, Repr

/-- Parser.tryStringToPrimitive: a boolean word becomes a boolean, a
numeric string becomes a number, anything else stays a string. -/
def tryStringToPrimitive (value : String) : SettingVal :=
  let t := jsTrim (jsToLower value)
  if t == "true" || t == "yes" || t == "on" then SettingVal.bool true
  else if t == "false" || t == "no" || t == "off" then SettingVal.bool false
  else if jsIsNumeric value then SettingVal.num value
  else SettingVal.str value

/-- Assignment into a JavaScript object keyed by strings: overwrite the
binding when the key exists, append it otherwise. -/
def assocSet (m : List (String × SettingVal)) (k : String) (v : SettingVal) :
    List (String × SettingVal) :=
  if (m.lookup k).isSome then m.map (fun kv => if kv.1 == k then (k, v) else kv)
  else m ++ [(k, v)]

/-- Error standing for an exhausted fuel counter: the models of the source
while-loops recurse on fuel, and returning this error means the modelled
loop ran longer than the supplied bound (the loops invoked in theorems
below always receive enough fuel). -/
def fuelError : TspError := TspError.mk "model: fuel exhausted"

/-- Error standing for a JavaScript crash from reading a property of
undefined (an out-of-range element access the source does not guard). -/
def undefinedReadError : TspError := TspError.mk "model: property read of undefined"

/-- Parser.parseCommaSeparatedValues: the loop over flag entries of an
entity header attribute list.  A bare flag name, one with no = value
assignment after it, is recorded with the value false; an assigned value
goes through tryStringToPrimitive.  A repeated flag name appends a
duplicate-flag warning.  Returns the record, the cursor and the appended
diagnostics. -/
def parseCommaSeparatedValues (entityFile : String) (entityLine : Nat) :
    Nat → Cursor → List (String × SettingVal) → List Diag →
    Except TspError (List (String × SettingVal) × Cursor × List Diag)
  | 0, _, _, _ => Except.error fuelError
  | fuel + 1, c, result, diags =>
    match c.tokens.get? c.index with
    | none => Except.error undefinedReadError
    | some tok =>
      if tok.type != TokenType.SET_CLOSE && tok.type != TokenType.ENTITY_PARAM_DELIM then
        match c.consume "flag id" TokenType.PHRASE with
        | Except.error e => Except.error e
        | Except.ok (keyTok, c) =>
          let flagKey := keyTok.value
          let diags :=
            if (result.lookup flagKey).isSome then
              diags ++ [addWarningD entityFile entityLine
                ("Duplicate flag name " ++ flagKey ++ " found. The value will be overwritten.")]
            else diags
          let next : Except TspError (SettingVal × Cursor) :=
            if (c.tokens.getD c.index dummyToken).type == TokenType.ENTITY_STATE_ASSIGN then
              match c.matchT [TokenType.ENTITY_STATE_ASSIGN] with
              | Except.error e => Except.error e
              | Except.ok (_, c) =>
                match c.consume "flag value" TokenType.PHRASE with
                | Except.error e => Except.error e
                | Except.ok (valTok, c) => Except.ok (tryStringToPrimitive valTok.value, c)
            else Except.ok (SettingVal.bool false, c)
          match next with
          | Except.error e => Except.error e
          | Except.ok (rval, c) =>
            let result := assocSet result flagKey rval
            match c.matchT [TokenType.ENTITY_STATE_DELIM] with
            | Except.error e => Except.error e
            | Except.ok (_, c) =>
              parseCommaSeparatedValues entityFile entityLine fuel c result diags
      else Except.ok (result, c, diags)

/-- Parser.convertSettingValue: coerce a setting value using the declared
default-settings map of the macro; with no declared default, auto-detect a
boolean literal, then a numeric literal, else keep the text. -/
def convertSettingValue (defaults : Option (List (String × SettingVal)))
    (settingKey : String) (settingValue : String) : SettingVal :=
  match defaults.bind (fun ds => ds.lookup settingKey) with
  | some (SettingVal.bool _) => SettingVal.bool (settingValue == "true")
  | some (SettingVal.num _) =>
    if jsIsNumeric settingValue then SettingVal.num settingValue else SettingVal.str settingValue
  | some (SettingVal.str _) => SettingVal.str settingValue
  | none =>
    if settingValue == "true" || settingValue == "false" then
      SettingVal.bool (settingValue == "true")
    else if jsIsNumeric settingValue then SettingVal.num settingValue
    else SettingVal.str settingValue

/-- Inner loop of Parser.parseMacroSettings: key [= value] entries,
comma separated.  A bare key defaults to boolean true; an assigned value
goes through convertSettingValue against the macro defaults. -/
def parseMacroSettingsLoop (defaults : Option (List (String × SettingVal))) :
    Nat → Cursor → List (String × SettingVal) →
    Except TspError (List (String × SettingVal) × Cursor)
  | 0, _, _ => Except.error fuelError
  | fuel + 1, c, settings =>
    match c.check [TokenType.MACRO_SETTING_END] with
    | Except.error e => Except.error e
    | Except.ok atEnd =>
      if atEnd then Except.ok (settings, c)
      else
        match c.consume "setting key" TokenType.PHRASE with
        | Except.error e => Except.error e
        | Except.ok (keyTok, c) =>
          let settingKey := keyTok.value
          let step : Except TspError (List (String × SettingVal) × Cursor) :=
            match c.check [TokenType.MACRO_SETTING_ASSIGN] with
            | Except.error e => Except.error e
            | Except.ok hasAssign =>
              if hasAssign then
                match c.matchT [TokenType.MACRO_SETTING_ASSIGN] with
                | Except.error e => Except.error e
                | Except.ok (_, c) =>
                  match c.consumeOneOf "setting value of string, number or boolean"
                      [TokenType.NUMBER, TokenType.BOOLEAN, TokenType.PHRASE] with
                  | Except.error e => Except.error e
                  | Except.ok (valTok, c) =>
                    Except.ok (assocSet settings settingKey
                      (convertSettingValue defaults settingKey valTok.value), c)
              else
                Except.ok (assocSet settings settingKey (SettingVal.bool true), c)
          match step with
          | Except.error e => Except.error e
          | Except.ok (settings, c) =>
            match c.check [TokenType.MACRO_SETTING_DELIM] with
            | Except.error e => Except.error e
            | Except.ok hasDelim =>
              if hasDelim then
                match c.matchT [TokenType.MACRO_SETTING_DELIM] with
                | Except.error e => Except.error e
                | Except.ok (_, c) => parseMacroSettingsLoop defaults fuel c settings
              else Except.ok (settings, c)

/-- Parser.parseMacroSettings: when a settings opener is present, parse
the key [= value] list and close it, else return the existing settings of
the macro unchanged without touching the cursor.  The call to
Verification.verifyMacroSettings, which only appends diagnostics and does
not change the parsed settings, is not modelled here. -/
def parseMacroSettings (defaults : Option (List (String × SettingVal))) (fuel : Nat)
    (c : Cursor) (existing : Option (List (String × SettingVal))) :
    Except TspError (Option (List (String × SettingVal)) × Cursor) :=
  match c.matchT [TokenType.MACRO_SETTING] with
  | Except.error e => Except.error e
  | Except.ok (opened, c) =>
    if opened then
      match parseMacroSettingsLoop defaults fuel c [] with
      | Except.error e => Except.error e
      | Except.ok (settings, c) =>
        match c.matchT [TokenType.MACRO_SETTING_END] with
        | Except.error e => Except.error e
        | Except.ok (_, c) => Except.ok (some settings, c)
    else Except.ok (existing, c)

/-- One relational comparison of a conditional-expression chain
(TokenTypes.ts LogicalExpression): lval, relational operator, rval, and
the optional logical connector to the next comparison. -/
structure LogicalExpressionE where
  lval : String
  op : String
  rval : String
  lop : Option String
deriving DecidableEq, Repr

/-- Parser.consumeInline: a backtick-delimited inline body; empty result
when no delimiter is present. -/
def consumeInline (c : Cursor) : Except TspError (String × Cursor) :=
  match c.matchT [TokenType.INLINE_DELIM] with
  | Except.error e => Except.error e
  | Except.ok (opened, c) =>
    if opened then
      match c.check [TokenType.PARAGRAPH] with
      | Except.error e => Except.error e
      | Except.ok hasText =>
        if hasText then
          match c.consume "inline text" TokenType.PARAGRAPH with
          | Except.error e => Except.error e
          | Except.ok (tok, c) =>
            match c.matchT [TokenType.INLINE_DELIM] with
            | Except.error e => Except.error e
            | Except.ok (_, c) => Except.ok (tok.value, c)
        else Except.error (TspError.mk "Inline body must not be empty")
    else Except.ok ("", c)

/-- Inner do-while of Parser.parseMacroConditionals: consume lval,
relational operator and rval tuples, chained while a logical connector
was just consumed. -/
def parseCondPair : Nat → Cursor → List LogicalExpressionE →
    Except TspError (List LogicalExpressionE × Cursor)
  | 0, _, _ => Except.error fuelError
  | fuel + 1, c, acc =>
    match c.consume "cond lval" TokenType.PHRASE with
    | Except.error e => Except.error e
    | Except.ok (lvalTok, c) =>
      match c.consume "cond relop" TokenType.RELOP with
      | Except.error e => Except.error e
      | Except.ok (opTok, c) =>
        match c.check [TokenType.INLINE_DELIM] with
        | Except.error e => Except.error e
        | Except.ok isInline =>
          let rvalStep : Except TspError (String × Cursor) :=
            if isInline then consumeInline c
            else
              match c.consume "cond rval" TokenType.PHRASE with
              | Except.error e => Except.error e
              | Except.ok (t, c) => Except.ok (jsToLower t.value, c)
          match rvalStep with
          | Except.error e => Except.error e
          | Except.ok (rval, c) =>
            match c.check [TokenType.LOGOP] with
            | Except.error e => Except.error e
            | Except.ok hasLop =>
              let lopStep : Except TspError (Option String × Cursor) :=
                if hasLop then
                  match c.consume "cond logop" TokenType.LOGOP with
                  | Except.error e => Except.error e
                  | Except.ok (t, c) => Except.ok (some t.value, c)
                else Except.ok (none, c)
              match lopStep with
              | Except.error e => Except.error e
              | Except.ok (lop, c) =>
                let acc := acc ++ [LogicalExpressionE.mk (jsToLower lvalTok.value) opTok.value rval lop]
                if (c.lookBehindD).type == TokenType.LOGOP then parseCondPair fuel c acc
                else Except.ok (acc, c)

/-- Outer while of Parser.parseMacroConditionals: tuples until the
closing parenthesis. -/
def parseCondExprs : Nat → Cursor → List LogicalExpressionE →
    Except TspError (List LogicalExpressionE × Cursor)
  | 0, _, _ => Except.error fuelError
  | fuel + 1, c, acc =>
    match c.check [TokenType.SET_CLOSE] with
    | Except.error e => Except.error e
    | Except.ok atClose =>
      if atClose then Except.ok (acc, c)
      else
        match parseCondPair fuel c acc with
        | Except.error e => Except.error e
        | Except.ok (acc, c) => parseCondExprs fuel c acc

/-- Parser.parseMacroConditionals: when a parenthesis opens, parse the
flat chain and close it; else return the existing chain of the macro
unchanged without touching the cursor. -/
def parseMacroConditionals (fuel : Nat) (c : Cursor)
    (existing : Option (List LogicalExpressionE)) :
    Except TspError (Option (List LogicalExpressionE) × Cursor) :=
  match c.matchT [TokenType.SET_OPEN] with
  | Except.error e => Except.error e
  | Except.ok (opened, c) =>
    if opened then
      match parseCondExprs fuel c [] with
      | Except.error e => Except.error e
      | Except.ok (exprs, c) =>
        match c.matchT [TokenType.SET_CLOSE] with
        | Except.error e => Except.error e
        | Except.ok (_, c) => Except.ok (some exprs, c)
    else Except.ok (existing, c)

/-- Parser.tryInlineBody: when an inline delimiter is present, consume the
quoted body; else return whatever the macro already holds, without
touching the cursor. -/
def tryInlineBody (c : Cursor) (existing : Option String) :
    Except TspError (Option String × Cursor) :=
  match c.matchT [TokenType.INLINE_DELIM] with
  | Except.error e => Except.error e
  | Except.ok (opened, c) =>
    if opened then
      match c.consume "macro inline body" TokenType.PARAGRAPH with
      | Except.error e => Except.error e
      | Except.ok (tok, c) =>
        match c.matchT [TokenType.INLINE_DELIM] with
        | Except.error e => Except.error e
        | Except.ok (_, c) => Except.ok (some tok.value, c)
    else Except.ok (existing, c)

/-- Fragments of a macro header gathered between the tag and the closing
bracket: inline body, conditional chain, settings list. -/
structure MacroHeaderState where
  inlineText : Option String
  cond : Option (List LogicalExpressionE)
  settings : Option (List (String × SettingVal))
deriving DecidableEq, Repr

/-- The macro-header loop of Parser.parseMacro (identical in shape to the
one in Parser.parseOptionMacro): while the closing bracket is not matched,
run tryInlineBody, parseMacroConditionals and parseMacroSettings in turn.
The result none means the fuel ran out with the loop still running: the
modelled while-loop did not terminate within the bound. -/
def parseMacroHeaderLoop (defaults : Option (List (String × SettingVal))) :
    Nat → MacroHeaderState → Cursor →
    Option (Except TspError (MacroHeaderState × Cursor))
  | 0, _, _ => none
  | fuel + 1, st, c =>
    match c.matchT [TokenType.MACRO_CLOSE] with
    | Except.error e => some (Except.error e)
    | Except.ok (closed, c) =>
      if closed then some (Except.ok (st, c))
      else
        match tryInlineBody c st.inlineText with
        | Except.error e => some (Except.error e)
        | Except.ok (inlineText, c) =>
          match parseMacroConditionals fuel c st.cond with
          | Except.error e => some (Except.error e)
          | Except.ok (cond, c) =>
            match parseMacroSettings defaults fuel c st.settings with
            | Except.error e => some (Except.error e)
            | Except.ok (settings, c) =>
              parseMacroHeaderLoop defaults fuel (MacroHeaderState.mk inlineText cond settings) c

/-- Presence and shape states of the grammar (Definitions.ts enum state). -/
inductive StateV where
  | absent
  | required
  | optional
  | replacebody
  | idorchild
  | singular
  | parameter
deriving DecidableEq, Repr

/-- Placement constraints of an option (Definitions.ts enum optionSequence). -/
inductive OptSeqV where
  | repeatable
  | first
  | last
deriving DecidableEq, Repr

/-- The fields of an OptionDefinition that the embedded checks read:
presence, placement, and body state. -/
structure OptionDefE where
  presence : Option StateV
  placement : Option OptSeqV
  body : Option StateV
deriving DecidableEq, Repr

/-- The option registry (Options.ts class Options): for every command key
of the definitions table whose shape declares options, the option map of
that key.  Built here from the per-command option tables directly. -/
def OptionsMap := List (String × List (String × OptionDefE))

/-- Options.getOptionDefinition: the option definition registered for the
command key and option key, or none. -/
def getOptionDefinitionE (opts : OptionsMap) (commandKey optionKey : String) :
    Option OptionDefE :=
  match List.lookup commandKey opts with
  | some options => List.lookup optionKey options
  | none => none

/-- Options.isOptionDefinition: whether the option key is registered for
any command at all (the source iterates every option map). -/
def isOptionDefinitionE (opts : OptionsMap) (optionKey : String) : Bool :=
  opts.any (fun kv => (List.lookup optionKey kv.2).isSome)

/-- Parser.assertOptionMacro: with a parent tag given, when the upcoming
tokens are shaped like an option (an option opener followed by a word),
answer true when the word is a registered option key of some macro and
raise a parse error when it is registered nowhere; in every other case
answer false.  The look-ahead reads the raw token value (only advance
lower-cases values). -/
def assertOptionMacroCheck (opts : OptionsMap) (c : Cursor) (parentTag : Option String) :
    Except TspError Bool :=
  match parentTag with
  | none => Except.ok false
  | some pt =>
    match c.check [TokenType.OPTION_OPEN] with
    | Except.error e => Except.error e
    | Except.ok atOpen =>
      if atOpen then
        let nextToken := c.lookAhead 1
        if nextToken.type == TokenType.WORD then
          if isOptionDefinitionE opts nextToken.value then Except.ok true
          else Except.error (TspError.mk
            ("Invalid option macro <" ++ nextToken.value ++ "> in structured macro [" ++ pt ++ "]"))
        else Except.ok false
      else Except.ok false

/-- Head of Parser.parseOptionMacro (through the option-tag validation):
match the option opener, consume the tag word, and look the tag up among
the options registered for the parent macro tag; an unregistered tag
raises a parse error.  The rest of the option parse (id, header
fragments, body) follows in the source and is not needed by the checked
property. -/
def parseOptionMacroHeader (opts : OptionsMap) (parentTag : String) (c : Cursor) :
    Except TspError (String × OptionDefE × Cursor) :=
  match c.matchT [TokenType.OPTION_OPEN] with
  | Except.error e => Except.error e
  | Except.ok (opened, c) =>
    if opened then
      match c.consume "option tag" TokenType.WORD with
      | Except.error e => Except.error e
      | Except.ok (tagTok, c) =>
        match getOptionDefinitionE opts parentTag tagTok.value with
        | none => Except.error (TspError.mk
            ("Invalid option tag <" ++ tagTok.value ++ "> in structured macro [" ++ parentTag ++ "]"))
        | some optionDef => Except.ok (tagTok.value, optionDef, c)
    else Except.error (TspError.mk "Expecting (MACRO_OPEN), got another token")

/-- One test of the option loop of Parser.parseStructuredMacroBody: while
assertOptionMacro holds and the parent end tag has not been reached,
parseOptionMacro runs.  The result none means the loop exits without
consuming (no upcoming option, or the parent end reached). -/
def structuredOptionStep (opts : OptionsMap) (parentTag : String) (c : Cursor) :
    Except TspError (Option (String × OptionDefE × Cursor)) :=
  match assertOptionMacroCheck opts c (some parentTag) with
  | Except.error e => Except.error e
  | Except.ok isOption =>
    if isOption then
      match c.check [TokenType.MACRO_END] with
      | Except.error e => Except.error e
      | Except.ok atEnd =>
        if atEnd then Except.ok none
        else
          match parseOptionMacroHeader opts parentTag c with
          | Except.error e => Except.error e
          | Except.ok r => Except.ok (some r)
    else Except.ok none

/-- Shallow entity record held by the Reference Map (the body-less
CommandData of the first pass): id, declared type, source position. -/
structure RefCmdE where
  id : String
  etype : String
  file : String
  line : Nat
deriving DecidableEq, Repr

/-- Base.combineObjectsUnique: combine two keyed maps; any key present in
both raises the duplicate-key TspError built by cmderr (the source throws
at the first duplicate it visits), otherwise the spread of the two. -/
def combineObjectsUnique (obj1 obj2 : List (String × RefCmdE)) :
    Except TspError (List (String × RefCmdE)) :=
  let duplicateKeys := (obj1.map Prod.fst).filter (fun key => (List.lookup key obj2).isSome)
  match duplicateKeys with
  | [] => Except.ok (obj1 ++ obj2)
  | key :: _ =>
    match List.lookup key obj2 with
    | some cmdData2 => Except.error (cmderrE cmdData2.file cmdData2.line
        ("Duplicate key " ++ key ++ " encountered. Decide which to keep or change."))
    | none => Except.error (TspError.mk "model: unreachable")

/-- The per-unit fold of Parser.buildReferences: each parsed entity header
is added to the unit reference map through combineObjectsUnique, so a
duplicate id inside one unit raises. -/
def buildReferencesFold (entities : List (String × RefCmdE)) :
    Except TspError (List (String × RefCmdE)) :=
  entities.foldlM (fun acc kv => combineObjectsUnique acc [kv]) []

/-- A direct child command of an entity body as the singularity check
reads it: synthetic uid (unique per node), tag, source position. -/
structure VCmdE where
  uid : Nat
  tag : Option String
  file : String
  line : Nat
deriving DecidableEq, Repr

/-- The slice of a CommandDefinition that the singularity check reads. -/
structure VDefE where
  multiplicity : Option StateV
deriving DecidableEq, Repr

/-- Lookup of getCommandOrOptionDef for a direct child of an entity (no
parent command is passed there, so only the definitions table is
consulted); an unknown tag raises the undefined-command cmderr. -/
def getCommandDefE (defs : String → Option VDefE) (cmd : VCmdE) :
    Except TspError VDefE :=
  match cmd.tag.bind defs with
  | some d => Except.ok d
  | none => Except.error (cmderrE cmd.file cmd.line "Undefined command")

/-- The body of the loop of Verification.verifyCommandSingularity: walk
the body array from the last index down to 0; the first occurrence seen
of a tag whose definition is marked singular registers the tag, and every
further (earlier) occurrence appends a duplicate diagnostic through
addError and is filtered out of the body.  The index argument is the
current position; the body list is re-read after each removal exactly as
the source re-reads the mutated array. -/
def singularityLoop (defs : String → Option VDefE) :
    Nat → List VCmdE → List String → List Diag →
    Except TspError (List VCmdE × List Diag)
  | i, body, singularCommands, diags =>
    match body.get? i with
    | none => Except.error undefinedReadError
    | some cmd =>
      match getCommandDefE defs cmd with
      | Except.error e => Except.error e
      | Except.ok cmdDef =>
        let isSingular := cmd.tag.isSome && cmdDef.multiplicity == some StateV.singular
        let next : List VCmdE × List String × List Diag :=
          if isSingular then
            match cmd.tag with
            | some t =>
              if singularCommands.contains t then
                (body.filter (fun item => item ≠ cmd),
                 singularCommands,
                 diags ++ [addErrorD cmd.file cmd.line
                   ("Duplicate command: [" ++ t ++ "] may only appear once in an entity. Only the last definition will be used.")])
              else (body, singularCommands ++ [t], diags)
            | none => (body, singularCommands, diags)
          else (body, singularCommands, diags)
        match i, next with
        | 0, (body, _, diags) => Except.ok (body, diags)
        | Nat.succ j, (body, singularCommands, diags) =>
          singularityLoop defs j body singularCommands diags

/-- Verification.verifyCommandSingularity: run the downward loop over the
entity body when it is a non-empty array; the result is the pruned body
and the appended diagnostics. -/
def verifyCommandSingularity (defs : String → Option VDefE)
    (body : Option (List VCmdE)) :
    Except TspError (Option (List VCmdE) × List Diag) :=
  match body with
  | none => Except.ok (none, [])
  | some l =>
    match l.length with
    | 0 => Except.ok (some l, [])
    | Nat.succ n =>
      match singularityLoop defs n l [] [] with
      | Except.error e => Except.error e
      | Except.ok (pruned, diags) => Except.ok (some pruned, diags)

/-- A direct child of a structured macro body as the option-presence
check reads it: only the tag. -/
structure BodyCmdE where
  tag : String
deriving DecidableEq, Repr

/-- The structured macro under the option-presence check: tag, source
position, body (an array of option commands, or absent). -/
structure MacroCmdE where
  tag : String
  file : String
  line : Nat
  body : Option (List BodyCmdE)
deriving DecidableEq, Repr

/-- Local bodyContains of Verification.verifyOptionPresence: whether some
element of the body array carries the tag. -/
def bodyContainsE (body : Option (List BodyCmdE)) (tag : String) : Bool :=
  match body with
  | some l => l.any (fun m => m.tag == tag)
  | none => false

/-- First required option of the descriptor that the body misses, in
table order: the first loop of verifyOptionPresence throws at it. -/
def findMissingRequired (optionDefs : List (String × OptionDefE))
    (cmd : MacroCmdE) : Option String :=
  (optionDefs.find? (fun kv =>
    kv.2.presence == some StateV.required && !(bodyContainsE cmd.body kv.1))).map Prod.fst

/-- The indexed forEach of verifyOptionPresence: an option tag not in the
descriptor appends an invalid-option error and then crashes on the
undefined descriptor read (modelled as a fatal error carrying the
diagnostics seen so far); a registered option marked first away from
index 0, or marked last away from the final index, appends one placement
error each.  len is the length of the whole body array. -/
def placementLoop (optionDefs : List (String × OptionDefE)) (cmd : MacroCmdE)
    (len : Nat) : List BodyCmdE → Nat → List Diag → List Diag × Option TspError
  | [], _, diags => (diags, none)
  | o :: rest, i, diags =>
    let diags :=
      if (List.lookup o.tag optionDefs).isSome then diags
      else diags ++ [addErrorD cmd.file cmd.line
        ("Invalid option: " ++ o.tag ++ " for [" ++ cmd.tag ++ "]")]
    match List.lookup o.tag optionDefs with
    | none => (diags, some undefinedReadError)
    | some optionDef =>
      let diags :=
        if optionDef.placement == some OptSeqV.first && i != 0 then
          diags ++ [addErrorD cmd.file cmd.line
            ("Option [" ++ o.tag ++ "] for [" ++ cmd.tag ++ "] may only be the first option")]
        else diags
      let diags :=
        if optionDef.placement == some OptSeqV.last && i != len - 1 then
          diags ++ [addErrorD cmd.file cmd.line
            ("Option [" ++ o.tag ++ "] for [" ++ cmd.tag ++ "] may only be the last option")]
        else diags
      placementLoop optionDefs cmd len rest (i + 1) diags

/-- Verification.verifyOptionPresence: a required option absent from the
body throws the missing-required cmderr before any body iteration;
otherwise the indexed placement loop runs over the body array and only
appends diagnostics.  The body itself is never modified here. -/
def verifyOptionPresence (optionDefs : List (String × OptionDefE))
    (cmd : MacroCmdE) : List Diag × Option TspError :=
  match findMissingRequired optionDefs cmd with
  | some missing =>
    ([], some (cmderrE cmd.file cmd.line
      ("Missing required option: " ++ missing ++ " for [" ++ cmd.tag ++ "]")))
  | none =>
    match cmd.body with
    | none => ([], none)
    | some l => placementLoop optionDefs cmd l.length l 0 []

/-- Entity record consulted by the rval check: its flags bag (absent when
the entity declared none). -/
structure FlagEntityE where
  flags : Option (List (String × Bool))
deriving DecidableEq, Repr

/-- Keys of the enum globalFuncKeys (Command.ts): the built-in function
names the in operator finds on the compiled enum object. -/
def globalFuncKeysE : List String :=
  ["visited", "entries", "present", "encountered", "carried", "handled",
   "met", "position", "here", "presentitems", "visibleitems", "this"]

/-- Keys of the enum builtInEntities (Command.ts). -/
def builtInEntitiesE : List String := ["player", "offstage"]

/-- Recognized boolean literals of checkValidRval. -/
def isBooleanLiteral (r : String) : Bool :=
  r == "true" || r == "false" || r == "on" || r == "off" || r == "yes" || r == "no"

/-- Verification.checkValidRval: the if-chain accepting an rval that is an
entity reference, a recognized boolean literal, numeric, a flag name on
the entity named by the sibling lval, a built-in function name, or a
built-in entity name; everything else is rejected (the commented-out
acceptance of plain strings in the source stays rejected). -/
def checkValidRval (entityReferences : List (String × FlagEntityE))
    (rval : Option String) (lval : Option String) : Bool :=
  match rval with
  | none => false
  | some r =>
    if (List.lookup r entityReferences).isSome then true
    else if isBooleanLiteral r then true
    else if jsIsNumeric r then true
    else if (match lval with
             | some l =>
               match List.lookup l entityReferences with
               | some entity =>
                 match entity.flags with
                 | some flags => (List.lookup r flags).isSome
                 | none => false
               | none => false
             | none => false) then true
    else if globalFuncKeysE.contains r then true
    else if builtInEntitiesE.contains r then true
    else false

/-- The rval branch of Verification.verifyReferences: when the descriptor
requires an rval, a missing rval appends one error and a present rval
failing checkValidRval appends one error; when the descriptor neither
requires nor allows an rval, a present rval appends a forbidden-rval
error.  All of these go through addError: accumulated, never thrown. -/
def verifyReferencesRval (rvalState : Option StateV)
    (entityReferences : List (String × FlagEntityE))
    (tag : String) (file : String) (line : Nat)
    (id : Option String) (rval : Option String) : List Diag :=
  let requiredPart :=
    if rvalState == some StateV.required then
      match rval with
      | none => [addErrorD file line ("Missing required rval in [" ++ tag ++ "]")]
      | some r =>
        if checkValidRval entityReferences (some r) id then []
        else [addErrorD file line ("Invalid rval reference: " ++ r ++ " in " ++ tag)]
    else []
  let forbiddenPart :=
    if rvalState != some StateV.required && rvalState != some StateV.optional then
      match rval with
      | some r => [addErrorD file line ("Forbidden rval in " ++ tag ++ " " ++ r)]
      | none => []
    else []
  requiredPart ++ forbiddenPart

/-- One usage site of a global variable record. -/
structure UsageSite where
  file : String
  line : Nat
deriving DecidableEq, Repr

/-- A Global Variable Record (Verification.ts class InitReference): the
identifier, every recorded usage site, and the parameter names of the
entity enclosing the first use (through cmd.parentEntity.parameters),
absent when the enclosing entity declares none. -/
structure InitReferenceE where
  id : String
  usage : List UsageSite
  parentParams : Option (List String)
deriving DecidableEq, Repr

/-- The command data handed to createVariableReference: the identifier
under use, its site, and the parameters of its enclosing entity. -/
structure GVarCmdE where
  id : Option String
  file : String
  line : Nat
  parentParams : Option (List String)
deriving DecidableEq, Repr

/-- Verification.createVariableReference: a first use creates the record
with one usage site; a later use appends one usage site to the existing
record; a command without an id throws. -/
def createVariableReference (inits : List (String × InitReferenceE))
    (cmd : GVarCmdE) : Except TspError (List (String × InitReferenceE)) :=
  match cmd.id with
  | none => Except.error (cmderrE cmd.file cmd.line "Missing id property")
  | some id =>
    match List.lookup id inits with
    | none =>
      Except.ok (inits ++
        [(id, InitReferenceE.mk id [UsageSite.mk cmd.file cmd.line] cmd.parentParams)])
    | some _ =>
      Except.ok (inits.map (fun kv =>
        if kv.1 == id then (kv.1, InitReferenceE.mk kv.2.id
          (kv.2.usage ++ [UsageSite.mk cmd.file cmd.line]) kv.2.parentParams)
        else kv))

/-- Verification.verifyLocalVariables: the identifier resolves when it is
a parameter of the entity enclosing the recorded command. -/
def verifyLocalVariables (g : InitReferenceE) : Bool :=
  match g.parentParams with
  | some ps => ps.contains g.id
  | none => false

/-- Loop body of Verification.verifyInitializedGlobalVariables for one
record: skip the identifier this (case-insensitively), a built-in entity
name, a numeric identifier, one found in the completed reference map, and
one resolving as a local parameter; otherwise append one error message
per recorded usage site. -/
def verifyOneGlobal (entityReferences : List String) (gvar : String)
    (g : InitReferenceE) : List Diag :=
  if jsToLower gvar == "this" then []
  else if builtInEntitiesE.contains gvar then []
  else if jsIsNumeric g.id then []
  else if entityReferences.contains g.id then []
  else if verifyLocalVariables g then []
  else g.usage.map (fun u => addErrorD u.file u.line
    ("Global Variable " ++ gvar ++ " is not declared anywhere"))

/-- Verification.verifyInitializedGlobalVariables: the whole-program pass
over every Global Variable Record.  Processor.processFilesAndDirectories
invokes it once, after the loop over all source units has completed, on
the completed entity map. -/
def verifyInitializedGlobalVariables (entityReferences : List String)
    (inits : List (String × InitReferenceE)) : List Diag :=
  inits.flatMap (fun kv => verifyOneGlobal entityReferences kv.1 kv.2)

/-- Command kinds (Definitions.ts enum cmdType).  The enum member spelled
macro in the source is named macroCmd here (macro is reserved in Lean). -/
inductive CmdTypeE where
  | assignment
  | entity
  | entityRef
  | hotlink
  | itemlink
  | fixedlink
  | npclink
  | location
  | macroCmd
  | option
  | reference
  | scenerylink
  | statement
  | tostring
  | system
  | text
  | variable
deriving DecidableEq, Repr

/-- Flow classifications (Definitions.ts enum flow).  The member spelled
none in the source is named noneFlow here. -/
inductive FlowE where
  | inline
  | block
  | structured
  | location
  | noneFlow
deriving DecidableEq, Repr

mutual
/-- A command node as the normalizer reads it: kind, tag, body.  The
synthetic uid, id and the other fields are not inspected by the
whitespace pass and are omitted. -/
inductive CmdW where
  | mk (ctype : CmdTypeE) (tag : String) (body : CBodyW)
deriving DecidableEq, Repr
/-- A body value (Command.ts BodyType): absent, a raw string, or an array
of child commands. -/
inductive CBodyW where
  | undef
  | str (s : String)
  | arr (l : CmdListW)
deriving DecidableEq, Repr
/-- A body array of child commands. -/
inductive CmdListW where
  | nil
  | cons (head : CmdW) (tail : CmdListW)
deriving DecidableEq, Repr
end

/-- Kind of a command node. -/
def CmdW.ctype : CmdW → CmdTypeE
  | CmdW.mk t _ _ => t

/-- Tag of a command node. -/
def CmdW.tag : CmdW → String
  | CmdW.mk _ tg _ => tg

/-- Body of a command node. -/
def CmdW.body : CmdW → CBodyW
  | CmdW.mk _ _ b => b

/-- The node with its body replaced (the assignment child.body = ... of
the source, made functional). -/
def CmdW.withBody : CmdW → CBodyW → CmdW
  | CmdW.mk t tg _, b => CmdW.mk t tg b

/-- Coercion (child.body as string) of the source on a text node: text
nodes built by the parser and by createTextNode always carry strings;
other shapes yield the empty string here. -/
def CBodyW.asString : CBodyW → String
  | CBodyW.str s => s
  | _ => ""

/-- Length of a body array. -/
def CmdListW.length : CmdListW → Nat
  | CmdListW.nil => 0
  | CmdListW.cons _ l => l.length + 1

/-- Indexed read of a body array. -/
def CmdListW.get? : CmdListW → Nat → Option CmdW
  | CmdListW.nil, _ => none
  | CmdListW.cons c _, 0 => some c
  | CmdListW.cons _ l, n + 1 => l.get? n

/-- Concatenation of body arrays. -/
def CmdListW.append : CmdListW → CmdListW → CmdListW
  | CmdListW.nil, l2 => l2
  | CmdListW.cons c l, l2 => CmdListW.cons c (l.append l2)

/-- The context threaded through the whitespace recursion
(WhitespaceManagement.ts interface WhitespaceContext). -/
structure WhitespaceContextE where
  depth : Nat
  parentFlow : Option FlowE
  isFirstChild : Bool
  isLastChild : Bool
  previousSiblingType : Option CmdTypeE
  nextSiblingType : Option CmdTypeE
deriving DecidableEq, Repr

/-- WhitespaceManagement.createChildContext: positional context of the
child at the given index of the parent body array. -/
def createChildContext (parentContext : WhitespaceContextE) (childIndex : Nat)
    (parentBody : CmdListW) : WhitespaceContextE :=
  { depth := parentContext.depth + 1
    parentFlow := parentContext.parentFlow
    isFirstChild := childIndex == 0
    isLastChild := childIndex == parentBody.length - 1
    previousSiblingType :=
      if 0 < childIndex then (parentBody.get? (childIndex - 1)).map CmdW.ctype else none
    nextSiblingType :=
      if childIndex + 1 < parentBody.length then (parentBody.get? (childIndex + 1)).map CmdW.ctype
      else none }

/-- WhitespaceManagement.createTextNode: a fresh text node carrying the
given text (the synthetic uid it also receives is not modelled). -/
def createTextNode (text : String) : CmdW :=
  CmdW.mk CmdTypeE.text "text" (CBodyW.str text)

/-- Effective flow of a node: getCommandDefinitionSafe looks the tag up in
the definitions table (an empty or unknown tag falls back to a default
definition with inline flow), and processWhitespace then reads
cmdDef.flow with inline as the default.  The two defaults collapse: defs
gives the explicit flow field of the definitions entry when there is one,
and everything else is inline. -/
def flowTypeOf (defs : String → Option FlowE) (cmd : CmdW) : FlowE :=
  if cmd.tag == "" then FlowE.inline
  else
    match defs cmd.tag with
    | some f => f
    | none => FlowE.inline

/-- Leading trim of processLocationFlow: when the first element of the
processed body is a text node, drop the leading whitespace of its body. -/
def locTrimFirst : CmdListW → CmdListW
  | CmdListW.nil => CmdListW.nil
  | CmdListW.cons first rest =>
    if first.ctype == CmdTypeE.text then
      CmdListW.cons (first.withBody (CBodyW.str (jsTrimLeft first.body.asString))) rest
    else CmdListW.cons first rest

/-- Trailing trim of processLocationFlow: when the last element of the
processed body is a text node, drop the trailing whitespace of its body. -/
def locTrimLast : CmdListW → CmdListW
  | CmdListW.nil => CmdListW.nil
  | CmdListW.cons c CmdListW.nil =>
    if c.ctype == CmdTypeE.text then
      CmdListW.cons (c.withBody (CBodyW.str (jsTrimRight c.body.asString))) CmdListW.nil
    else CmdListW.cons c CmdListW.nil
  | CmdListW.cons c rest => CmdListW.cons c (locTrimLast rest)

mutual
/-- WhitespaceManagement.processWhitespace: route the node to the handler
of its effective flow and return the rewritten body. -/
def processWhitespace (defs : String → Option FlowE) (cmd : CmdW)
    (context : WhitespaceContextE) : CBodyW :=
  match cmd with
  | CmdW.mk t tg b =>
    match flowTypeOf defs (CmdW.mk t tg b) with
    | FlowE.inline =>
      match b with
      | CBodyW.arr l => CBodyW.arr (mapChildrenFlow defs context l 0 l)
      | other => other
    | FlowE.block =>
      match b with
      | CBodyW.arr l =>
        let processed := blockChildren defs context l 0 l
        let processed :=
          if context.isFirstChild then processed
          else CmdListW.cons (createTextNode "\n\n") processed
        let processed :=
          if context.isLastChild then processed
          else processed.append (CmdListW.cons (createTextNode "\n\n") CmdListW.nil)
        CBodyW.arr processed
      | other => other
    | FlowE.structured =>
      match b with
      | CBodyW.arr l => CBodyW.arr (structuredChildren defs context l 0 l)
      | other => other
    | FlowE.location =>
      match b with
      | CBodyW.arr l =>
        CBodyW.arr (locTrimLast (locTrimFirst (mapChildrenFlow defs context l 0 l)))
      | other => other
    | FlowE.noneFlow => CBodyW.undef

/-- The child map of processInlineFlow (and the identical recursion of
processLocationFlow before its boundary trimming): every child keeps its
place and has its body rewritten under the context built from its index
in the parent body array. -/
def mapChildrenFlow (defs : String → Option FlowE) (context : WhitespaceContextE)
    (parentBody : CmdListW) (i : Nat) : CmdListW → CmdListW
  | CmdListW.nil => CmdListW.nil
  | CmdListW.cons c rest =>
    CmdListW.cons (c.withBody (processWhitespace defs c (createChildContext context i parentBody)))
      (mapChildrenFlow defs context parentBody (i + 1) rest)

/-- The child walk of processBlockFlow: a text child is trimmed and kept
only when non-empty; every other child is recursed and kept. -/
def blockChildren (defs : String → Option FlowE) (context : WhitespaceContextE)
    (parentBody : CmdListW) (i : Nat) : CmdListW → CmdListW
  | CmdListW.nil => CmdListW.nil
  | CmdListW.cons c rest =>
    if c.ctype == CmdTypeE.text then
      let text := jsTrim c.body.asString
      if text == "" then blockChildren defs context parentBody (i + 1) rest
      else CmdListW.cons (c.withBody (CBodyW.str text)) (blockChildren defs context parentBody (i + 1) rest)
    else
      CmdListW.cons (c.withBody (processWhitespace defs c (createChildContext context i parentBody)))
        (blockChildren defs context parentBody (i + 1) rest)

/-- The child walk of processStructuredFlow: a whitespace-only text child
is dropped, a non-whitespace text child is kept unchanged (the source
logs it and keeps it), every other child is recursed and kept. -/
def structuredChildren (defs : String → Option FlowE) (context : WhitespaceContextE)
    (parentBody : CmdListW) (i : Nat) : CmdListW → CmdListW
  | CmdListW.nil => CmdListW.nil
  | CmdListW.cons c rest =>
    if c.ctype == CmdTypeE.text then
      if jsTrim c.body.asString != "" then
        CmdListW.cons c (structuredChildren defs context parentBody (i + 1) rest)
      else structuredChildren defs context parentBody (i + 1) rest
    else
      CmdListW.cons (c.withBody (processWhitespace defs c (createChildContext context i parentBody)))
        (structuredChildren defs context parentBody (i + 1) rest)
end

/-- JavaScript truthiness of a body value, as the guard if (cmd.body) of
manageWhitespace reads it: absent and the empty string are falsy, every
array (also the empty one) is truthy. -/
def cbodyTruthy : CBodyW → Bool
  | CBodyW.undef => false
  | CBodyW.str s => s != ""
  | CBodyW.arr _ => true

/-- The initial context manageWhitespace builds for each top-level
entity. -/
def initialWhitespaceContext : WhitespaceContextE :=
  { depth := 0
    parentFlow := none
    isFirstChild := true
    isLastChild := true
    previousSiblingType := none
    nextSiblingType := none }

/-- WhitespaceManagement.manageWhitespace on one entity: rewrite the body
through processWhitespace when the body is truthy. -/
def manageWhitespaceCmd (defs : String → Option FlowE) (cmd : CmdW) : CmdW :=
  if cbodyTruthy cmd.body then cmd.withBody (processWhitespace defs cmd initialWhitespaceContext)
  else cmd

/-- WhitespaceManagement.manageWhitespace: the pass over the whole parsed
entity map. -/
def manageWhitespace (defs : String → Option FlowE)
    (cmds : List (String × CmdW)) : List (String × CmdW) :=
  cmds.map (fun kv => (kv.1, manageWhitespaceCmd defs kv.2))

/-- The flow assignments of the definitions table (Definitions.ts): every
top-level key paired with its explicit flow field when the entry declares
one.  Entries without a flow field carry none and the normalizer treats
them as inline. -/
def definitionsFlowTable : List (String × Option FlowE) :=
  [("audio", none), ("function", none), ("item", none), ("fixed", none),
   ("itemdefaults", none), ("location", some FlowE.location), ("npc", none),
   ("system", none), ("variable", none), ("newline", none),
   ("text", some FlowE.inline), ("tostring", some FlowE.inline),
   ("hotlink", some FlowE.inline), ("itemlink", some FlowE.inline),
   ("fixedlink", some FlowE.inline), ("npclink", some FlowE.inline),
   ("link", some FlowE.structured), ("scenerylink", some FlowE.inline),
   ("entityRef", some FlowE.inline), ("visibleitems", some FlowE.inline),
   ("call", none), ("clearEvent", none), ("break", none), ("inventory", none),
   ("dismiss", none), ("dropitem", none), ("goto", none), ("hide", none),
   ("look", none), ("play", none), ("resume", none), ("stop", none),
   ("takeitem", none), ("talk", none), ("topics", some FlowE.inline),
   ("triggerEvent", none), ("move", none), ("set", none),
   ("description", some FlowE.block), ("gate", some FlowE.inline),
   ("i", some FlowE.inline), ("initial", none), ("once", some FlowE.inline),
   ("exiting", none), ("present", some FlowE.block),
   ("actions", some FlowE.structured), ("chain", some FlowE.block),
   ("each", some FlowE.structured), ("if", some FlowE.structured),
   ("interface", some FlowE.structured), ("interact", some FlowE.structured),
   ("itemui", some FlowE.structured), ("itemselect", some FlowE.structured),
   ("presentitemselect", none), ("scenery", some FlowE.structured),
   ("settings", none)]

/-- Flow lookup over the definitions table. -/
def definitionsFlow (tag : String) : Option FlowE :=
  (List.lookup tag definitionsFlowTable).join

/-- Text node of the shape the parser builds (parseTextBlock: type text,
tag text, string body). -/
def textW (s : String) : CmdW := CmdW.mk CmdTypeE.text "text" (CBodyW.str s)

/-- A location entity whose body is a text node, a present macro (block
flow) holding one description macro (block flow) holding a text node, and
a final text node: the shape a unit with one location declaring inline
text around a present/description pair parses to. -/
def wsEx1 : CmdW :=
  CmdW.mk CmdTypeE.location "location" (CBodyW.arr
    (CmdListW.cons (textW "t")
      (CmdListW.cons (CmdW.mk CmdTypeE.macroCmd "present" (CBodyW.arr
        (CmdListW.cons (CmdW.mk CmdTypeE.macroCmd "description" (CBodyW.arr
          (CmdListW.cons (textW "hello") CmdListW.nil))) CmdListW.nil)))
        (CmdListW.cons (textW "u") CmdListW.nil))))

/-- A location entity whose body opens with an inline macro holding a
text node with leading whitespace and closes with a text node with
trailing whitespace. -/
def locEx : CmdW :=
  CmdW.mk CmdTypeE.location "location" (CBodyW.arr
    (CmdListW.cons (CmdW.mk CmdTypeE.macroCmd "i"
      (CBodyW.arr (CmdListW.cons (textW "  a") CmdListW.nil)))
      (CmdListW.cons (textW "b  ") CmdListW.nil)))

mutual
/-- First text descendant of a node in document order: the node itself
when its kind is text, else the first text descendant of its body. -/
def firstTextDescC : CmdW → Option String
  | CmdW.mk t _ b => if t == CmdTypeE.text then some b.asString else firstTextDescB b
/-- First text descendant reachable through a body value. -/
def firstTextDescB : CBodyW → Option String
  | CBodyW.arr l => firstTextDescL l
  | _ => none
/-- First text descendant of a body array in document order. -/
def firstTextDescL : CmdListW → Option String
  | CmdListW.nil => none
  | CmdListW.cons c l =>
    match firstTextDescC c with
    | some s => some s
    | none => firstTextDescL l
end

mutual
/-- No node of the tree has the block flow under the given table. -/
def noBlockC (defs : String → Option FlowE) : CmdW → Bool
  | CmdW.mk t tg b =>
    (flowTypeOf defs (CmdW.mk t tg b) != FlowE.block) && noBlockB defs b
/-- No node under the body value has the block flow. -/
def noBlockB (defs : String → Option FlowE) : CBodyW → Bool
  | CBodyW.arr l => noBlockL defs l
  | _ => true
/-- No node of the body array has the block flow. -/
def noBlockL (defs : String → Option FlowE) : CmdListW → Bool
  | CmdListW.nil => true
  | CmdListW.cons c l => noBlockC defs c && noBlockL defs l
end

/-- Pointwise predicate over a body array. -/
def CmdListW.AllP (P : CmdW → Prop) : CmdListW → Prop
  | CmdListW.nil => True
  | CmdListW.cons c l => P c ∧ CmdListW.AllP P l

/-- A node the whitespace pass leaves fixed: its flow is neither block
nor none, and processing it returns its body unchanged under every
context.  Nodes of the output of a pass over a tree without block flows
all satisfy this, which is what makes the pass idempotent there. -/
def StableW (defs : String → Option FlowE) (e : CmdW) : Prop :=
  flowTypeOf defs e ≠ FlowE.block ∧ flowTypeOf defs e ≠ FlowE.noneFlow ∧
    ∀ ctx : WhitespaceContextE, processWhitespace defs e ctx = e.body

/-- Number of placement violations among the body elements starting at
absolute index i of a body of length len: an element registered with
placement first away from index 0, or placement last away from the final
index, counts one. -/
def placementViolationCountFrom (optionDefs : List (String × OptionDefE))
    (len : Nat) : List BodyCmdE → Nat → Nat
  | [], _ => 0
  | o :: rest, i =>
    (match List.lookup o.tag optionDefs with
     | some od =>
       if (od.placement == some OptSeqV.first && i != 0) ||
          (od.placement == some OptSeqV.last && i != len - 1) then 1 else 0
     | none => 0) + placementViolationCountFrom optionDefs len rest (i + 1)

/-- Number of placement violations of a structured macro body against an
option table. -/
def placementViolationCount (optionDefs : List (String × OptionDefE))
    (body : List BodyCmdE) : Nat :=
  placementViolationCountFrom optionDefs body.length body 0

/-- The options of the structured macro chain as the definitions table
registers them: intro placed first and optional, clink repeatable and
required. -/
def chainOptions : List (String × OptionDefE) :=
  [("intro", OptionDefE.mk (some StateV.optional) (some OptSeqV.first) (some StateV.required)),
   ("clink", OptionDefE.mk (some StateV.required) (some OptSeqV.repeatable) (some StateV.required))]

/-- The options of the structured macro scenery as the definitions table
registers them: prop repeatable and required. -/
def sceneryOptions : List (String × OptionDefE) :=
  [("prop", OptionDefE.mk (some StateV.required) (some OptSeqV.repeatable) (some StateV.required))]

/-- A fragment of the option registry holding the chain and scenery
entries of the definitions table. -/
def optionsMapEx : OptionsMap := [("chain", chainOptions), ("scenery", sceneryOptions)]

/-- A chain macro body holding one intro option and no clink option: the
required option clink is missing. -/
def chainMissingClink : MacroCmdE :=
  MacroCmdE.mk "chain" "unit.tsp" 7 (some [BodyCmdE.mk "intro"])

/-- A chain macro body holding a clink option and then an intro option:
the first-placed intro stands at index 1. -/
def chainIntroSecond : MacroCmdE :=
  MacroCmdE.mk "chain" "unit.tsp" 9 (some [BodyCmdE.mk "clink", BodyCmdE.mk "intro"])

/-- Definitions fragment for the singularity check: scenery is marked
singular, description is not. -/
def singDefsEx : String → Option VDefE := fun tag =>
  if tag == "scenery" then some (VDefE.mk (some StateV.singular))
  else if tag == "description" then some (VDefE.mk none)
  else none

/-- An entity body holding two scenery macros around a description
macro. -/
def sceneryTwiceBody : List VCmdE :=
  [VCmdE.mk 1 (some "scenery") "unit.tsp" 3,
   VCmdE.mk 2 (some "description") "unit.tsp" 5,
   VCmdE.mk 3 (some "scenery") "unit.tsp" 8]

/-- Cursor state of the macro-header loop after consuming the macro
opener and the tag of a truncated source [description with nothing after
the tag: the current token is the end-of-stream token. -/
def truncatedHeaderCursor : Cursor :=
  Cursor.mk
    [TokenData.mk TokenType.MACRO_OPEN "[" 1,
     TokenData.mk TokenType.WORD "description" 1,
     TokenData.mk TokenType.EOF "" 1] 2

/-- A node kept by the structured child walk: either a text node whose
trimmed content is non-empty (kept verbatim), or a non-text node that the
pass leaves fixed. -/
def StructOkW (defs : String → Option FlowE) (e : CmdW) : Prop :=
  (e.ctype = CmdTypeE.text ∧ jsTrim e.body.asString ≠ "") ∨
  (e.ctype ≠ CmdTypeE.text ∧ StableW defs e)

/-- Token stream of an entity flags list holding one bare flag name and
the closing parenthesis. -/
def flagCursor (k : String) (ln : Nat) : Cursor :=
  Cursor.mk
    [TokenData.mk TokenType.PHRASE k ln,
     TokenData.mk TokenType.SET_CLOSE ")" ln,
     TokenData.mk TokenType.EOF "" ln] 0

/-- Token stream of a macro settings list holding one bare key and the
closing delimiter. -/
def settingCursor (k : String) (ln : Nat) : Cursor :=
  Cursor.mk
    [TokenData.mk TokenType.MACRO_SETTING ":" ln,
     TokenData.mk TokenType.PHRASE k ln,
     TokenData.mk TokenType.MACRO_SETTING_END "]" ln,
     TokenData.mk TokenType.EOF "" ln] 0

/-- Recorded usage sites of an identifier in a Global Variable Record
table: the usage count of its record, 0 when there is none. -/
def usageCount (inits : List (String × InitReferenceE)) (id : String) : Nat :=
  match List.lookup id inits with
  | some g => g.usage.length
  | none => 0

/-- The flags-list record for the unresolved-global witness: two usage
sites of an identifier declared nowhere. -/
def scoreRecord : InitReferenceE :=
  InitReferenceE.mk "score" [UsageSite.mk "a.tsp" 4, UsageSite.mk "b.tsp" 9] none

/-- Entity reference table for the rval witness: one entity carrying one
flag. -/
def doorRefs : List (String × FlagEntityE) :=
  [("door", FlagEntityE.mk (some [("locked", true)]))]

/-- Cursor sitting on an option opener followed by the word prop inside a
chain structured macro: prop is registered for scenery, not for chain. -/
def wrongParentOptionCursor : Cursor :=
  Cursor.mk
    [TokenData.mk TokenType.OPTION_OPEN "<" 4,
     TokenData.mk TokenType.WORD "prop" 4,
     TokenData.mk TokenType.OPTION_CLOSE ">" 4,
     TokenData.mk TokenType.EOF "" 4] 0

/-- Two source units whose reference maps share the id gate. -/
def unitOneRefs : List (String × RefCmdE) :=
  [("gate", RefCmdE.mk "gate" "location" "one.tsp" 2)]

/-- Second unit declaring the same id. -/
def unitTwoRefs : List (String × RefCmdE) :=
  [("gate", RefCmdE.mk "gate" "location" "two.tsp" 11)]

/-- C4.  The claim states that every parsing loop advances the cursor or
raises an error on each iteration, so parsing terminates on every finite
token sequence, including malformed ones.  The macro-header loop of
Parser.parseMacro refutes this: on the truncated input consisting of a
macro opener and the tag description followed by end-of-stream, the loop
test (match of the closing bracket) fails, and all three fragment parsers
return without consuming or raising, so the loop body runs again in the
same cursor state: for every fuel bound the modelled loop neither exits
nor raises, which is exactly non-termination of the source loop. -/
theorem c4_macro_header_loop_spins_at_eof
    (defaults : Option (List (String × SettingVal))) (fuel : Nat)
    (st : MacroHeaderState) :
    parseMacroHeaderLoop defaults fuel st truncatedHeaderCursor = none := by
  induction fuel with
  | zero => rfl
  | succ n ih => exact ih

/-- C10.  In an entity header attribute list, a flag name listed without
an explicit = value assignment is recorded with the boolean value false
(parseCommaSeparatedValues), while a bare key in a macro settings list
defaults to boolean true (parseMacroSettings): opposite defaults for the
two bare-key forms. -/
theorem c10_bare_flag_false_bare_setting_true (k : String) (ln : Nat)
    (ef : String) (el : Nat) (defaults : Option (List (String × SettingVal))) :
    parseCommaSeparatedValues ef el 2 (flagCursor k ln) [] [] =
      Except.ok ([(jsToLower k, SettingVal.bool false)],
        Cursor.mk (flagCursor k ln).tokens 1, []) ∧
    parseMacroSettings defaults 2 (settingCursor k ln) none =
      Except.ok (some [(jsToLower k, SettingVal.bool true)],
        Cursor.mk (settingCursor k ln).tokens 3) := by
  exact ⟨rfl, rfl⟩

/-- C2.  On an entity body holding two scenery macros (a tag whose
definition is marked singular), the post-body singularity check keeps
exactly the last occurrence, removes the earlier one, and appends exactly
one diagnostic for the removed duplicate; the diagnostic however is
recorded through addError with the default severity error, not as a
warning (the doc comments of verifyCommandSingularity and of
state.singular both say the user is warned, and the specification calls
it a warning). -/
theorem c2_singularity_keeps_last_logs_error_severity :
    verifyCommandSingularity singDefsEx (some sceneryTwiceBody) =
      Except.ok (some [VCmdE.mk 2 (some "description") "unit.tsp" 5,
                       VCmdE.mk 3 (some "scenery") "unit.tsp" 8],
        [Diag.mk "unit.tsp" 3
          "Duplicate command: [scenery] may only appear once in an entity. Only the last definition will be used."
          ErrType.error]) ∧
    ErrType.error ≠ ErrType.warning := by
  exact ⟨rfl, by decide⟩

/-- C3 counterexample.  The claim states that every violation of the
option presence rules is reported as a non-fatal accumulated error with
parsing continuing.  On a chain macro whose body misses the required
clink option, verifyOptionPresence instead throws the missing-required
cmderr before any accumulation: the accumulated list is empty and the
fatal channel carries the typed error. -/
theorem c3_missing_required_option_is_fatal_counterexample :
    findMissingRequired chainOptions chainMissingClink = some "clink" ∧
    verifyOptionPresence chainOptions chainMissingClink =
      ([], some (cmderrE "unit.tsp" 7 "Missing required option: clink for [chain]")) := by
  exact ⟨rfl, rfl⟩

/-- The placement loop over a body whose tags are all registered never
raises and appends exactly one diagnostic per placement violation. -/
theorem placementLoop_ok (optionDefs : List (String × OptionDefE)) (cmd : MacroCmdE)
    (len : Nat) :
    ∀ (l : List BodyCmdE) (i : Nat) (diags : List Diag),
      (∀ o ∈ l, (List.lookup o.tag optionDefs).isSome = true) →
      (placementLoop optionDefs cmd len l i diags).2 = none ∧
      (placementLoop optionDefs cmd len l i diags).1.length =
        diags.length + placementViolationCountFrom optionDefs len l i := by
  intro l
  induction l with
  | nil =>
    intro i diags _
    exact ⟨rfl, by simp [placementLoop, placementViolationCountFrom]⟩
  | cons o rest ih =>
    intro i diags h
    have ho : (List.lookup o.tag optionDefs).isSome = true := h o (by simp)
    obtain ⟨od, hod⟩ := Option.isSome_iff_exists.mp ho
    have hrest : ∀ x ∈ rest, (List.lookup x.tag optionDefs).isSome = true := by
      intro x hx
      exact h x (by simp [hx])
    by_cases hb1 : (od.placement == some OptSeqV.first && i != 0) = true
    · by_cases hb2 : (od.placement == some OptSeqV.last && i != len - 1) = true
      · exfalso
        have e1 : od.placement = some OptSeqV.first := by
          have := (Bool.and_eq_true _ _).mp hb1
          exact eq_of_beq this.1
        have e2 : od.placement = some OptSeqV.last := by
          have := (Bool.and_eq_true _ _).mp hb2
          exact eq_of_beq this.1
        rw [e1] at e2
        exact absurd (Option.some.inj e2) (by intro hq; cases hq)
      · rw [Bool.not_eq_true] at hb2
        have step := ih (i + 1)
          (diags ++ [addErrorD cmd.file cmd.line
            ("Option [" ++ o.tag ++ "] for [" ++ cmd.tag ++ "] may only be the first option")])
          hrest
        refine ⟨?_, ?_⟩
        · have := step.1
          simp only [placementLoop, hod, ho, hb1, hb2, if_true, Bool.false_eq_true,
            if_false, ite_true, ite_false] at this ⊢
          simpa using this
        · have h2 := step.2
          simp only [placementLoop, placementViolationCountFrom, hod, ho, hb1, hb2,
            Option.isSome_some, Bool.true_or, Bool.false_or, if_true, Bool.false_eq_true, if_false,
            ite_true, ite_false] at h2 ⊢
          simp only [List.length_append, List.length_cons, List.length_nil] at h2 ⊢
          omega
    · rw [Bool.not_eq_true] at hb1
      by_cases hb2 : (od.placement == some OptSeqV.last && i != len - 1) = true
      · have step := ih (i + 1)
          (diags ++ [addErrorD cmd.file cmd.line
            ("Option [" ++ o.tag ++ "] for [" ++ cmd.tag ++ "] may only be the last option")])
          hrest
        refine ⟨?_, ?_⟩
        · have := step.1
          simp only [placementLoop, hod, ho, hb1, hb2, if_true, Bool.false_eq_true,
            if_false, ite_true, ite_false] at this ⊢
          simpa using this
        · have h2 := step.2
          simp only [placementLoop, placementViolationCountFrom, hod, ho, hb1, hb2,
            Option.isSome_some, Bool.true_or, Bool.false_or, Bool.or_true, Bool.or_false, if_true,
            Bool.false_eq_true, if_false, ite_true, ite_false] at h2 ⊢
          simp only [List.length_append, List.length_cons, List.length_nil] at h2 ⊢
          omega
      · rw [Bool.not_eq_true] at hb2
        have step := ih (i + 1) diags hrest
        refine ⟨?_, ?_⟩
        · have := step.1
          simp only [placementLoop, hod, ho, hb1, hb2, Bool.false_eq_true, if_false,
            ite_false] at this ⊢
          simpa using this
        · have h2 := step.2
          simp only [placementLoop, placementViolationCountFrom, hod, ho, hb1, hb2,
            Option.isSome_some, Bool.or_false, Bool.false_or, Bool.false_eq_true, if_false,
            ite_true, ite_false] at h2 ⊢
          omega

/-- C3 (amended).  For a structured macro whose body satisfies the
presence rules (every option the descriptor marks required occurs at
least once) and whose body tags are all registered for the macro,
verification raises no fatal error and reports exactly one accumulated
error diagnostic per placement violation: a first-placed option away from
position 0 or a last-placed option away from the final position.  The
check never modifies the body, so the tree stays fully constructed.  A
missing required option, by contrast, throws a fatal cmderr (see the
counterexample theorem for the claim as stated). -/
theorem c3_option_placement_nonfatal (optionDefs : List (String × OptionDefE))
    (cmd : MacroCmdE) (l : List BodyCmdE)
    (hbody : cmd.body = some l)
    (hreq : ∀ kv ∈ optionDefs, kv.2.presence = some StateV.required →
      bodyContainsE cmd.body kv.1 = true)
    (hknown : ∀ o ∈ l, (List.lookup o.tag optionDefs).isSome = true) :
    (verifyOptionPresence optionDefs cmd).2 = none ∧
    (verifyOptionPresence optionDefs cmd).1.length = placementViolationCount optionDefs l := by
  have hfind : findMissingRequired optionDefs cmd = none := by
    unfold findMissingRequired
    have : List.find? (fun kv => kv.2.presence == some StateV.required &&
        !(bodyContainsE cmd.body kv.1)) optionDefs = none := by
      rw [List.find?_eq_none]
      intro kv hkv
      by_cases hp : kv.2.presence = some StateV.required
      · have hc := hreq kv hkv hp
        simp [hp, hc]
      · simp [hp]
    rw [this]
    rfl
  have hloop := placementLoop_ok optionDefs cmd l.length l 0 [] hknown
  unfold verifyOptionPresence
  rw [hfind, hbody]
  refine ⟨hloop.1, ?_⟩
  have := hloop.2
  simpa [placementViolationCount] using this

/-- Witness for C3: a chain macro whose body holds a clink option and
then the first-placed intro option satisfies the presence rules, raises
no fatal error, and yields exactly one placement diagnostic (the
violation count of that body is one). -/
theorem c3_option_placement_nonfatal_witness :
    ((verifyOptionPresence chainOptions chainIntroSecond).2 = none ∧
     (verifyOptionPresence chainOptions chainIntroSecond).1.length =
       placementViolationCount chainOptions [BodyCmdE.mk "clink", BodyCmdE.mk "intro"]) ∧
    placementViolationCount chainOptions [BodyCmdE.mk "clink", BodyCmdE.mk "intro"] = 1 := by
  refine ⟨c3_option_placement_nonfatal chainOptions chainIntroSecond
    [BodyCmdE.mk "clink", BodyCmdE.mk "intro"] rfl ?_ ?_, by decide⟩
  · intro kv hkv hp
    revert hp
    fin_cases hkv <;> intro hp <;> rfl
  · intro o hm
    fin_cases hm <;> rfl

/-- A key with a binding in a keyed list is among its keys. -/
theorem mem_keys_of_lookup_isSome {β : Type} (k : String) (l : List (String × β))
    (h : (List.lookup k l).isSome = true) : k ∈ l.map Prod.fst := by
  induction l with
  | nil => simp [List.lookup] at h
  | cons kv rest ih =>
    obtain ⟨k1, v1⟩ := kv
    by_cases hk : k == k1
    · simp [eq_of_beq hk]
    · rw [List.lookup] at h
      rw [Bool.not_eq_true] at hk
      rw [hk] at h
      simpa using Or.inr (ih h)

/-- A binding found on the left of an append is found in the append. -/
theorem lookup_append_isSome_left {β : Type} (k : String) (l1 l2 : List (String × β))
    (h : (List.lookup k l1).isSome = true) :
    (List.lookup k (l1 ++ l2)).isSome = true := by
  induction l1 with
  | nil => simp [List.lookup] at h
  | cons kv rest ih =>
    obtain ⟨k1, v1⟩ := kv
    by_cases hk : k == k1
    · simp [List.lookup, hk]
    · rw [Bool.not_eq_true] at hk
      rw [List.cons_append, List.lookup, hk]
      rw [List.lookup, hk] at h
      exact ih h

/-- With no binding on the left, lookup over an append reads the right. -/
theorem lookup_append_of_left_none {β : Type} (k : String) (l1 l2 : List (String × β))
    (h : List.lookup k l1 = none) :
    List.lookup k (l1 ++ l2) = List.lookup k l2 := by
  induction l1 with
  | nil => simp
  | cons kv rest ih =>
    obtain ⟨k1, v1⟩ := kv
    by_cases hk : k == k1
    · rw [List.lookup, hk] at h
      cases h
    · rw [Bool.not_eq_true] at hk
      rw [List.lookup, hk] at h
      rw [List.cons_append, List.lookup, hk]
      exact ih h

/-- A binding found on the right of an append is found in the append. -/
theorem lookup_append_isSome_right {β : Type} (k : String) (l1 l2 : List (String × β))
    (h : (List.lookup k l2).isSome = true) :
    (List.lookup k (l1 ++ l2)).isSome = true := by
  rcases hl : List.lookup k l1 with _ | v
  · rw [lookup_append_of_left_none k l1 l2 hl]
    exact h
  · exact lookup_append_isSome_left k l1 l2 (by simp [hl])

/-- Bind of a raised Except propagates the error. -/
theorem except_bind_error {α β : Type} (e : TspError) (f : α → Except TspError β) :
    (Except.error e >>= f) = Except.error e := rfl

/-- Bind of a successful Except applies the continuation. -/
theorem except_bind_ok {α β : Type} (a : α) (f : α → Except TspError β) :
    (Except.ok a >>= f) = f a := rfl

/-- combineObjectsUnique raises on any key bound in both maps. -/
theorem combine_error_of_dup (o1 o2 : List (String × RefCmdE)) (k : String)
    (h1 : (List.lookup k o1).isSome = true) (h2 : (List.lookup k o2).isSome = true) :
    ∃ e, combineObjectsUnique o1 o2 = Except.error e := by
  rcases hfil : (o1.map Prod.fst).filter (fun key => (List.lookup key o2).isSome) with _ | ⟨key, rest⟩
  · exfalso
    have hk : k ∈ o1.map Prod.fst := mem_keys_of_lookup_isSome k o1 h1
    exact absurd h2 (by simpa using List.filter_eq_nil_iff.mp hfil k hk)
  · rcases hlk : List.lookup key o2 with _ | v
    · exact ⟨TspError.mk "model: unreachable", by simp [combineObjectsUnique, hfil, hlk]⟩
    · exact ⟨cmderrE v.file v.line ("Duplicate key " ++ key ++ " encountered. Decide which to keep or change."),
        by simp [combineObjectsUnique, hfil, hlk]⟩

/-- A successful combineObjectsUnique is the spread of the two maps. -/
theorem combine_ok_shape (o1 o2 r : List (String × RefCmdE))
    (h : combineObjectsUnique o1 o2 = Except.ok r) : r = o1 ++ o2 := by
  rcases hfil : (o1.map Prod.fst).filter (fun key => (List.lookup key o2).isSome) with _ | ⟨key, rest⟩
  · simp [combineObjectsUnique, hfil] at h
    exact h.symm
  · rcases hlk : List.lookup key o2 with _ | v <;> simp [combineObjectsUnique, hfil, hlk] at h

/-- The per-entity reference fold raises whenever the accumulated map
already binds the key and the remaining entities declare it once more, or
the remaining entities declare it twice. -/
theorem foldRefs_error_aux (k : String) :
    ∀ (l : List (String × RefCmdE)) (acc : List (String × RefCmdE)),
      (((List.lookup k acc).isSome = true ∧ 1 ≤ (l.map Prod.fst).count k) ∨
        2 ≤ (l.map Prod.fst).count k) →
      ∃ e, List.foldlM (fun acc kv => combineObjectsUnique acc [kv]) acc l = Except.error e := by
  intro l
  induction l with
  | nil =>
    intro acc h
    simp at h
  | cons kv rest ih =>
    intro acc h
    obtain ⟨k1, v1⟩ := kv
    rcases hc : combineObjectsUnique acc [(k1, v1)] with e | acc2
    · exact ⟨e, by simp [List.foldlM, hc, except_bind_error]⟩
    · have hacc2 : acc2 = acc ++ [(k1, v1)] := combine_ok_shape _ _ _ hc
      by_cases hk : k1 = k
      · subst hk
        rcases h with ⟨hsome, _⟩ | htwo
        · obtain ⟨e, he⟩ := combine_error_of_dup acc [(k1, v1)] k1 hsome (by simp [List.lookup])
          rw [he] at hc
          cases hc
        · have hsome2 : (List.lookup k1 acc2).isSome = true := by
            rw [hacc2]
            exact lookup_append_isSome_right k1 acc [(k1, v1)] (by simp [List.lookup])
          have hcount : 1 ≤ (rest.map Prod.fst).count k1 := by
            rw [List.map_cons, List.count_cons] at htwo
            simp only [beq_self_eq_true, if_true, ite_true] at htwo
            omega
          obtain ⟨e, he⟩ := ih acc2 (Or.inl ⟨hsome2, hcount⟩)
          exact ⟨e, by simp [List.foldlM, hc, except_bind_ok, he]⟩
      · have hne1 : (k == k1) = false := by
          rw [beq_eq_false_iff_ne]
          exact fun hq => hk hq.symm
        have hne2 : (k1 == k) = false := by
          rw [beq_eq_false_iff_ne]
          exact hk
        have hcount_eq : ((((k1, v1) :: rest).map Prod.fst).count k) = (rest.map Prod.fst).count k := by
          rw [List.map_cons, List.count_cons]
          simp [hne1, hne2]
        rcases h with ⟨hsome, hone⟩ | htwo
        · have hsome2 : (List.lookup k acc2).isSome = true := by
            rw [hacc2]
            exact lookup_append_isSome_left k acc [(k1, v1)] hsome
          rw [hcount_eq] at hone
          obtain ⟨e, he⟩ := ih acc2 (Or.inl ⟨hsome2, hone⟩)
          exact ⟨e, by simp [List.foldlM, hc, except_bind_ok, he]⟩
        · rw [hcount_eq] at htwo
          obtain ⟨e, he⟩ := ih acc2 (Or.inr htwo)
          exact ⟨e, by simp [List.foldlM, hc, except_bind_ok, he]⟩

/-- C8.  Entity declarations sharing one id are rejected with a thrown
typed TspError rather than an overwrite, in both directions the source
exercises combineObjectsUnique: across source units (the unit reference
maps are combined in Processor.processTspFiles) and within one unit (the
per-entity fold of Parser.buildReferences raises when one unit declares
an id twice). -/
theorem c8_duplicate_entity_id_fatal (k : String) :
    (∀ (unit1 unit2 : List (String × RefCmdE)),
      (List.lookup k unit1).isSome = true → (List.lookup k unit2).isSome = true →
      ∃ e, combineObjectsUnique unit1 unit2 = Except.error e) ∧
    (∀ (entities : List (String × RefCmdE)),
      2 ≤ (entities.map Prod.fst).count k →
      ∃ e, buildReferencesFold entities = Except.error e) := by
  constructor
  · intro unit1 unit2 h1 h2
    exact combine_error_of_dup unit1 unit2 k h1 h2
  · intro entities htwo
    exact foldRefs_error_aux k entities [] (Or.inr htwo)

/-- Witness for C8: the same id gate declared in two source units makes
the cross-unit combination raise, and one unit declaring gate twice makes
the per-unit reference fold raise. -/
theorem c8_duplicate_entity_id_fatal_witness :
    (∃ e, combineObjectsUnique unitOneRefs unitTwoRefs = Except.error e) ∧
    (∃ e, buildReferencesFold
      [("gate", RefCmdE.mk "gate" "location" "one.tsp" 2),
       ("gate", RefCmdE.mk "gate" "location" "one.tsp" 9)] = Except.error e) := by
  have h := c8_duplicate_entity_id_fatal "gate"
  exact ⟨h.1 unitOneRefs unitTwoRefs (by decide) (by decide),
    h.2 [("gate", RefCmdE.mk "gate" "location" "one.tsp" 2),
         ("gate", RefCmdE.mk "gate" "location" "one.tsp" 9)] (by decide)⟩

/-- The flag branch of checkValidRval holds exactly when the sibling lval
names an entity of the reference map whose flags bag binds the rval. -/
theorem flag_branch_iff (entityReferences : List (String × FlagEntityE))
    (id : Option String) (r : String) :
    (match id with
     | some l =>
       match List.lookup l entityReferences with
       | some entity =>
         match entity.flags with
         | some flags => (List.lookup r flags).isSome
         | none => false
       | none => false
     | none => false) = true ↔
    (∃ l entity flags, id = some l ∧ List.lookup l entityReferences = some entity ∧
      entity.flags = some flags ∧ (List.lookup r flags).isSome = true) := by
  rcases id with _ | l
  · simp
  · rcases he : List.lookup l entityReferences with _ | entity
    · simp [he]
    · rcases hf : entity.flags with _ | flags
      · simp [he, hf]
      · simp [he, hf]

/-- C5.  For a node whose shape descriptor requires an rval, the present
rval is accepted exactly when it resolves as an entity reference, or is a
recognized boolean literal, or is numeric, or is a flag name on the
entity named by the sibling id, or is a built-in function name, or is a
built-in entity name; and the rval branch of verifyReferences emits no
diagnostic exactly in the accepted cases (one error diagnostic
otherwise). -/
theorem c5_rval_check_iff (entityReferences : List (String × FlagEntityE))
    (rvalState : Option StateV) (tag file : String) (line : Nat)
    (id : Option String) (r : String)
    (hreq : rvalState = some StateV.required) :
    (checkValidRval entityReferences (some r) id = true ↔
      ((List.lookup r entityReferences).isSome = true ∨
       isBooleanLiteral r = true ∨
       jsIsNumeric r = true ∨
       (∃ l entity flags, id = some l ∧ List.lookup l entityReferences = some entity ∧
         entity.flags = some flags ∧ (List.lookup r flags).isSome = true) ∨
       globalFuncKeysE.contains r = true ∨
       builtInEntitiesE.contains r = true)) ∧
    (verifyReferencesRval rvalState entityReferences tag file line id (some r) = [] ↔
      checkValidRval entityReferences (some r) id = true) := by
  have hflag := flag_branch_iff entityReferences id r
  constructor
  · constructor
    · intro h
      simp only [checkValidRval] at h
      split_ifs at h with h1 h2 h3 h4 h5 h6
      · exact Or.inl h1
      · exact Or.inr (Or.inl h2)
      · exact Or.inr (Or.inr (Or.inl h3))
      · exact Or.inr (Or.inr (Or.inr (Or.inl (hflag.mp h4))))
      · exact Or.inr (Or.inr (Or.inr (Or.inr (Or.inl h5))))
      · exact Or.inr (Or.inr (Or.inr (Or.inr (Or.inr h6))))
    · intro h
      simp only [checkValidRval]
      split_ifs with h1 h2 h3 h4 h5 h6
      · rfl
      · rfl
      · rfl
      · rfl
      · rfl
      · rfl
      · rcases h with h | h | h | h | h | h
        · exact absurd h h1
        · exact absurd h h2
        · exact absurd h h3
        · exact absurd (hflag.mpr h) h4
        · exact absurd h h5
        · exact absurd h h6
  · subst hreq
    by_cases hc : checkValidRval entityReferences (some r) id = true
    · simp [verifyReferencesRval, hc]
    · simp [verifyReferencesRval, hc]

/-- Witness for C5: with one entity door carrying the flag locked, the
rval locked paired with the lval door is accepted through the flag
branch, and the rval branch of verifyReferences emits no diagnostic. -/
theorem c5_rval_check_iff_witness :
    checkValidRval doorRefs (some "locked") (some "door") = true ∧
    verifyReferencesRval (some StateV.required) doorRefs "set" "unit.tsp" 12
      (some "door") (some "locked") = [] := by
  have h := c5_rval_check_iff doorRefs (some StateV.required) "set" "unit.tsp" 12
    (some "door") "locked" rfl
  have hc : checkValidRval doorRefs (some "locked") (some "door") = true :=
    h.1.mpr (Or.inr (Or.inr (Or.inr (Or.inl
      ⟨"door", FlagEntityE.mk (some [("locked", true)]), [("locked", true)],
        rfl, rfl, rfl, rfl⟩))))
  exact ⟨hc, h.2.mpr hc⟩

/-- Updating the record of one key in a Global Variable Record table
appends the new site to exactly that lookup. -/
theorem lookup_map_update (inits : List (String × InitReferenceE)) (i : String)
    (site : UsageSite) (g : InitReferenceE) (h : List.lookup i inits = some g) :
    List.lookup i (inits.map (fun kv =>
      if kv.1 == i then
        (kv.1, InitReferenceE.mk kv.2.id (kv.2.usage ++ [site]) kv.2.parentParams)
      else kv)) =
      some (InitReferenceE.mk g.id (g.usage ++ [site]) g.parentParams) := by
  induction inits with
  | nil => cases h
  | cons kv rest ih =>
    obtain ⟨k1, v1⟩ := kv
    by_cases hk : i == k1
    · have hik : i = k1 := eq_of_beq hk
      rw [List.lookup, hk] at h
      have hv : v1 = g := Option.some.inj h
      subst hik
      have hki : (i == i) = true := by simp
      simp only [List.map_cons, hki, if_true, ite_true]
      rw [List.lookup]
      simp [hv]
    · rw [Bool.not_eq_true] at hk
      rw [List.lookup, hk] at h
      have hki : (k1 == i) = false := by
        rw [beq_eq_false_iff_ne]
        intro hq
        rw [beq_eq_false_iff_ne] at hk
        exact hk hq.symm
      simp only [List.map_cons, hki, Bool.false_eq_true, if_false, ite_false]
      rw [List.lookup, hk]
      exact ih h

/-- C9.  An identifier used as an assignment target that never resolves
anywhere (not this, not a built-in entity, not numeric, not an entity of
the completed reference map, not a parameter of the enclosing function
entity) makes the whole-program pass emit exactly one error diagnostic
per recorded usage site; and each call of createVariableReference records
exactly one new usage site for the identifier.  The source runs the
whole-program pass once, after every source unit has been parsed
(Processor.processFilesAndDirectories calls it after its file loop). -/
theorem c9_unresolved_global_one_error_per_usage (entityReferences : List String)
    (g : String) (ref : InitReferenceE)
    (h1 : (jsToLower g == "this") = false)
    (h2 : builtInEntitiesE.contains g = false)
    (h3 : jsIsNumeric ref.id = false)
    (h4 : entityReferences.contains ref.id = false)
    (h5 : verifyLocalVariables ref = false) :
    verifyOneGlobal entityReferences g ref =
      ref.usage.map (fun u => addErrorD u.file u.line
        ("Global Variable " ++ g ++ " is not declared anywhere")) ∧
    (verifyOneGlobal entityReferences g ref).length = ref.usage.length ∧
    (∀ (inits : List (String × InitReferenceE)) (cmd : GVarCmdE) (i : String),
      cmd.id = some i →
      ∃ r, createVariableReference inits cmd = Except.ok r ∧
        usageCount r i = usageCount inits i + 1) := by
  have hmain : verifyOneGlobal entityReferences g ref =
      ref.usage.map (fun u => addErrorD u.file u.line
        ("Global Variable " ++ g ++ " is not declared anywhere")) := by
    have h2m : ¬ g ∈ builtInEntitiesE := by simpa using h2
    have h4m : ¬ ref.id ∈ entityReferences := by simpa using h4
    simp [verifyOneGlobal, h1, h2m, h3, h4m, h5]
  refine ⟨hmain, by rw [hmain]; simp, ?_⟩
  intro inits cmd i hid
  rcases hl : List.lookup i inits with _ | gr
  · refine ⟨inits ++ [(i, InitReferenceE.mk i [UsageSite.mk cmd.file cmd.line] cmd.parentParams)], ?_, ?_⟩
    · simp [createVariableReference, hid, hl]
    · unfold usageCount
      rw [lookup_append_of_left_none i inits _ hl]
      simp [List.lookup, hl]
  · refine ⟨inits.map (fun kv =>
      if kv.1 == i then
        (kv.1, InitReferenceE.mk kv.2.id (kv.2.usage ++ [UsageSite.mk cmd.file cmd.line]) kv.2.parentParams)
      else kv), ?_, ?_⟩
    · simp [createVariableReference, hid, hl]
    · unfold usageCount
      rw [lookup_map_update inits i (UsageSite.mk cmd.file cmd.line) gr hl, hl]
      simp

/-- Witness for C9: the identifier score, used at two sites and declared
nowhere, yields exactly two error diagnostics. -/
theorem c9_unresolved_global_witness :
    verifyOneGlobal [] "score" scoreRecord =
      [addErrorD "a.tsp" 4 "Global Variable score is not declared anywhere",
       addErrorD "b.tsp" 9 "Global Variable score is not declared anywhere"] ∧
    (verifyOneGlobal [] "score" scoreRecord).length = 2 := by
  have h := c9_unresolved_global_one_error_per_usage [] "score" scoreRecord
    (by decide) (by decide) (by decide) (by decide) (by decide)
  exact ⟨h.1, h.2.1⟩

/-- The guarded read of a known in-range token. -/
theorem peekD_of_get? (c : Cursor) (t : TokenData) (h : c.tokens.get? c.index = some t) :
    c.peekD = t := by
  unfold Cursor.peekD
  rw [List.getD_eq_getElem?_getD, ← List.get?_eq_getElem?, h]
  rfl

/-- isAtEnd on a known in-range token reports whether it is EOF. -/
theorem isAtEnd_of_get? (c : Cursor) (t : TokenData) (h : c.tokens.get? c.index = some t) :
    c.isAtEnd = Except.ok (t.type == TokenType.EOF) := by
  have hlt : c.index < c.tokens.length := (List.get?_eq_some.mp h).1
  unfold Cursor.isAtEnd
  rw [if_neg (by omega), peekD_of_get? c t h]

/-- check on a known in-range non-EOF token tests kind membership. -/
theorem check_of_get? (c : Cursor) (t : TokenData) (types : List TokenType)
    (h : c.tokens.get? c.index = some t) (hne : (t.type == TokenType.EOF) = false) :
    c.check types = Except.ok (types.contains t.type) := by
  unfold Cursor.check
  rw [isAtEnd_of_get? c t h, hne]
  simp [peekD_of_get? c t h]

/-- advance on a known in-range non-EOF, non-PARAGRAPH token returns the
lower-cased token and the cursor moved one forward. -/
theorem advance_of_get? (c : Cursor) (t : TokenData)
    (h : c.tokens.get? c.index = some t) (hne : (t.type == TokenType.EOF) = false)
    (hpar : (t.type == TokenType.PARAGRAPH) = false) :
    c.advance = Except.ok (TokenData.mk t.type (jsToLower t.value) t.line,
      Cursor.mk c.tokens (c.index + 1)) := by
  unfold Cursor.advance
  rw [isAtEnd_of_get? c t h, peekD_of_get? c t h]
  simp [hne, hpar]

/-- lookAhead of a known in-range offset reads that token. -/
theorem lookAhead_of_get? (c : Cursor) (t : TokenData) (offset : Nat)
    (h : c.tokens.get? (c.index + offset) = some t) :
    c.lookAhead offset = t := by
  have hlt : c.index + offset < c.tokens.length := (List.get?_eq_some.mp h).1
  unfold Cursor.lookAhead
  rw [if_neg (by omega), List.getD_eq_getElem?_getD, ← List.get?_eq_getElem?, h]
  rfl

/-- C7.  While a structured macro body is parsed, an upcoming token pair
shaped like an option (option opener then a word) whose tag is not
registered for the parent macro makes the option loop raise a parse
error: either assertOptionMacro raises (a word registered for no macro at
all), or assertOptionMacro answers true and the option-tag validation at
the head of parseOptionMacro raises (a word registered for some other
macro only).  No path skips the tokens silently or treats them as
text. -/
theorem c7_unregistered_option_tag_fatal (opts : OptionsMap) (parentTag : String)
    (c : Cursor) (v w : String) (l1 l2 : Nat)
    (h1 : c.tokens.get? c.index = some (TokenData.mk TokenType.OPTION_OPEN v l1))
    (h2 : c.tokens.get? (c.index + 1) = some (TokenData.mk TokenType.WORD w l2))
    (h3 : getOptionDefinitionE opts parentTag (jsToLower w) = none) :
    ∃ e, structuredOptionStep opts parentTag c = Except.error e := by
  have hchk : c.check [TokenType.OPTION_OPEN] = Except.ok true := by
    rw [check_of_get? c _ _ h1 rfl]
    rfl
  have hlook : c.lookAhead 1 = TokenData.mk TokenType.WORD w l2 :=
    lookAhead_of_get? c _ 1 h2
  by_cases hb : isOptionDefinitionE opts w = true
  · have hassert : assertOptionMacroCheck opts c (some parentTag) = Except.ok true := by
      unfold assertOptionMacroCheck
      rw [hchk, hlook]
      simp [hb]
    have hend : c.check [TokenType.MACRO_END] = Except.ok false := by
      rw [check_of_get? c _ _ h1 rfl]
      rfl
    have hmatch : c.matchT [TokenType.OPTION_OPEN] =
        Except.ok (true, Cursor.mk c.tokens (c.index + 1)) := by
      unfold Cursor.matchT
      rw [hchk, advance_of_get? c _ h1 rfl rfl]
      simp
    have hconsume : (Cursor.mk c.tokens (c.index + 1)).consume "option tag" TokenType.WORD =
        Except.ok (TokenData.mk TokenType.WORD (jsToLower w) l2,
          Cursor.mk c.tokens (c.index + 1 + 1)) := by
      unfold Cursor.consume
      rw [check_of_get? (Cursor.mk c.tokens (c.index + 1)) _ _ h2 rfl]
      rw [advance_of_get? (Cursor.mk c.tokens (c.index + 1)) _ h2 rfl rfl]
      simp
    refine ⟨TspError.mk ("Invalid option tag <" ++ jsToLower w ++ "> in structured macro [" ++ parentTag ++ "]"), ?_⟩
    unfold structuredOptionStep
    rw [hassert]
    simp only [if_true]
    rw [hend]
    simp only [Bool.false_eq_true, if_false, ite_false, ite_true]
    unfold parseOptionMacroHeader
    rw [hmatch]
    simp only [if_true, ite_true]
    rw [hconsume]
    simp only [h3]
  · have hassert : assertOptionMacroCheck opts c (some parentTag) =
        Except.error (TspError.mk
          ("Invalid option macro <" ++ w ++ "> in structured macro [" ++ parentTag ++ "]")) := by
      unfold assertOptionMacroCheck
      rw [hchk, hlook]
      rw [Bool.not_eq_true] at hb
      simp [hb]
    refine ⟨TspError.mk ("Invalid option macro <" ++ w ++ "> in structured macro [" ++ parentTag ++ "]"), ?_⟩
    unfold structuredOptionStep
    rw [hassert]

/-- Witness for C7: inside a chain structured macro, the upcoming option
tokens name prop, which is registered for scenery but not for chain, and
the option loop raises. -/
theorem c7_unregistered_option_tag_fatal_witness :
    ∃ e, structuredOptionStep optionsMapEx "chain" wrongParentOptionCursor = Except.error e := by
  exact c7_unregistered_option_tag_fatal optionsMapEx "chain" wrongParentOptionCursor
    "<" "prop" 4 4 rfl rfl rfl

/-- C6 counterexample.  The claim states that a location-flow node has
leading whitespace trimmed from the first text descendant of its body.
On the location entity whose body opens with an inline macro holding the
text node with two leading spaces, the normalizer leaves that text intact
(only a first direct child that is itself a text node is trimmed): the
first text descendant of the normalized body still begins with
whitespace. -/
theorem c6_location_trim_descendant_counterexample :
    firstTextDescB (manageWhitespaceCmd definitionsFlow locEx).body = some "  a" ∧
    jsTrimLeft "  a" ≠ "  a" := by
  exact ⟨rfl, by decide⟩

/-- locTrimFirst changes nothing past position 0. -/
theorem locTrimFirst_get?_pos (m : CmdListW) (i : Nat) (h : 0 < i) :
    (locTrimFirst m).get? i = m.get? i := by
  cases m with
  | nil => rfl
  | cons first rest =>
    obtain ⟨j, rfl⟩ : ∃ j, i = j + 1 := ⟨i - 1, by omega⟩
    by_cases hf : first.ctype == CmdTypeE.text <;> simp [locTrimFirst, hf, CmdListW.get?]

/-- locTrimFirst preserves length. -/
theorem locTrimFirst_length (m : CmdListW) : (locTrimFirst m).length = m.length := by
  cases m with
  | nil => rfl
  | cons first rest =>
    by_cases hf : first.ctype == CmdTypeE.text <;> simp [locTrimFirst, hf, CmdListW.length]

/-- One unfolding of locTrimLast on a list of two or more elements. -/
theorem locTrimLast_cons_cons (c d : CmdW) (r : CmdListW) :
    locTrimLast (CmdListW.cons c (CmdListW.cons d r)) =
      CmdListW.cons c (locTrimLast (CmdListW.cons d r)) := rfl

/-- locTrimLast preserves length. -/
theorem locTrimLast_length : ∀ (m : CmdListW), (locTrimLast m).length = m.length
  | CmdListW.nil => rfl
  | CmdListW.cons c CmdListW.nil => by
    by_cases hc : c.ctype == CmdTypeE.text <;> simp [locTrimLast, hc, CmdListW.length]
  | CmdListW.cons c (CmdListW.cons d rest2) => by
    rw [locTrimLast_cons_cons]
    simp only [CmdListW.length]
    rw [locTrimLast_length (CmdListW.cons d rest2)]
    rfl

/-- locTrimLast changes nothing before the final position. -/
theorem locTrimLast_get?_lt : ∀ (m : CmdListW) (i : Nat), i + 1 < m.length →
    (locTrimLast m).get? i = m.get? i
  | CmdListW.nil, _, _ => rfl
  | CmdListW.cons c CmdListW.nil, i, h => by
    simp [CmdListW.length] at h
  | CmdListW.cons c (CmdListW.cons d rest2), 0, _ => by
    rw [locTrimLast_cons_cons]
    rfl
  | CmdListW.cons c (CmdListW.cons d rest2), Nat.succ j, h => by
    rw [locTrimLast_cons_cons]
    simp only [CmdListW.get?]
    exact locTrimLast_get?_lt (CmdListW.cons d rest2) j (by simpa [CmdListW.length] using h)

/-- C6 (amended).  A location-flow node with an array body recurses into
its children exactly like inline flow and afterwards trims leading
whitespace from the first direct element of the processed body when that
element is a text node, and trailing whitespace from the last direct
element when that element is a text node; every interior element is left
exactly as the inline recursion produced it, and when the first element
is not a text node no leading trimming happens anywhere (in particular
nested text keeps its whitespace, refuting the first-text-descendant
reading). -/
theorem c6_location_trims_direct_boundary_children (defs : String → Option FlowE)
    (cmd : CmdW) (ctx : WhitespaceContextE) (l : CmdListW)
    (h1 : flowTypeOf defs cmd = FlowE.location) (h2 : cmd.body = CBodyW.arr l) :
    processWhitespace defs cmd ctx =
      CBodyW.arr (locTrimLast (locTrimFirst (mapChildrenFlow defs ctx l 0 l))) ∧
    (∀ i, 0 < i → i + 1 < (mapChildrenFlow defs ctx l 0 l).length →
      (locTrimLast (locTrimFirst (mapChildrenFlow defs ctx l 0 l))).get? i =
        (mapChildrenFlow defs ctx l 0 l).get? i) ∧
    (∀ c rest, mapChildrenFlow defs ctx l 0 l = CmdListW.cons c rest →
      (c.ctype == CmdTypeE.text) = false →
      locTrimFirst (mapChildrenFlow defs ctx l 0 l) = mapChildrenFlow defs ctx l 0 l) := by
  refine ⟨?_, ?_, ?_⟩
  · obtain ⟨t, tg, b⟩ := cmd
    have hb : b = CBodyW.arr l := h2
    subst hb
    rw [processWhitespace, h1]
  · intro i hi hlen
    rw [locTrimLast_get?_lt _ i, locTrimFirst_get?_pos _ i hi]
    rw [locTrimFirst_length]
    exact hlen
  · intro c rest hm hc
    rw [hm, locTrimFirst, hc]
    simp

/-- Witness for C6: the amended statement evaluated on the concrete
location entity. -/
theorem c6_location_trims_direct_boundary_children_witness :
    processWhitespace definitionsFlow locEx initialWhitespaceContext =
      CBodyW.arr (locTrimLast (locTrimFirst (mapChildrenFlow definitionsFlow
        initialWhitespaceContext
        (CmdListW.cons (CmdW.mk CmdTypeE.macroCmd "i"
          (CBodyW.arr (CmdListW.cons (textW "  a") CmdListW.nil)))
          (CmdListW.cons (textW "b  ") CmdListW.nil)) 0
        (CmdListW.cons (CmdW.mk CmdTypeE.macroCmd "i"
          (CBodyW.arr (CmdListW.cons (textW "  a") CmdListW.nil)))
          (CmdListW.cons (textW "b  ") CmdListW.nil))))) := by
  exact (c6_location_trims_direct_boundary_children definitionsFlow locEx
    initialWhitespaceContext _ rfl rfl).1

/-- C1 counterexample.  The claim states the Normalizer is idempotent on
every verified tree.  On the location entity holding text, a present
macro (block flow) with a description macro (block flow) inside, and
text, the first pass injects paragraph separators inside the present
body; on the second pass the description macro sits at index 1 of that
grown body, its context stops being first-and-last child, and the pass
injects separators inside the description body too: the trees differ. -/
theorem c1_normalizer_not_idempotent_counterexample :
    manageWhitespace definitionsFlow (manageWhitespace definitionsFlow [("somewhere", wsEx1)]) ≠
      manageWhitespace definitionsFlow [("somewhere", wsEx1)] := by
  decide

/-- Dropping the leading whitespace run twice equals dropping it once. -/
theorem jsTrimLeftList_idem (l : List Char) :
    jsTrimLeftList (jsTrimLeftList l) = jsTrimLeftList l := by
  induction l with
  | nil => rfl
  | cons c cs ih =>
    by_cases hw : c.isWhitespace
    · simp [jsTrimLeftList, hw, ih]
    · simp [jsTrimLeftList, hw]

/-- One-step unfolding of the right trim. -/
theorem jsTrimRightList_cons (c : Char) (cs : List Char) :
    jsTrimRightList (c :: cs) = match jsTrimRightList cs with
      | [] => if c.isWhitespace then [] else [c]
      | r => c :: r := rfl

/-- Dropping the trailing whitespace run twice equals dropping it once. -/
theorem jsTrimRightList_idem (l : List Char) :
    jsTrimRightList (jsTrimRightList l) = jsTrimRightList l := by
  induction l with
  | nil => rfl
  | cons c cs ih =>
    rcases h : jsTrimRightList cs with _ | ⟨r, rs⟩
    · by_cases hw : c.isWhitespace
      · simp [jsTrimRightList, h, hw]
      · simp [jsTrimRightList, h, hw]
    · rw [h] at ih
      have hc : jsTrimRightList (c :: cs) = c :: r :: rs := by
        rw [jsTrimRightList_cons, h]
      rw [hc, jsTrimRightList_cons, ih]

/-- An all-whitespace list right-trims to nothing. -/
theorem jsTrimRightList_eq_nil_iff (l : List Char) :
    jsTrimRightList l = [] ↔ l.all Char.isWhitespace := by
  induction l with
  | nil => simp [jsTrimRightList]
  | cons c cs ih =>
    rcases h : jsTrimRightList cs with _ | ⟨r, rs⟩
    · rw [h] at ih
      by_cases hw : c.isWhitespace <;> simp [jsTrimRightList, h, hw, ← ih]
    · have hcall : cs.all Char.isWhitespace = false := by
        rcases hq : cs.all Char.isWhitespace
        · rfl
        · have hnil := ih.mpr hq
          rw [h] at hnil
          exact absurd hnil (by simp)
      have hc : jsTrimRightList (c :: cs) = c :: r :: rs := by
        rw [jsTrimRightList_cons, h]
      rw [hc]
      simp [hcall]

/-- An all-whitespace list left-trims to nothing. -/
theorem jsTrimLeftList_eq_nil_iff (l : List Char) :
    jsTrimLeftList l = [] ↔ l.all Char.isWhitespace := by
  induction l with
  | nil => simp [jsTrimLeftList]
  | cons c cs ih =>
    by_cases hw : c.isWhitespace <;> simp [jsTrimLeftList, hw, ih]

/-- The two end trims commute. -/
theorem jsTrimLeftList_jsTrimRightList_comm (l : List Char) :
    jsTrimLeftList (jsTrimRightList l) = jsTrimRightList (jsTrimLeftList l) := by
  induction l with
  | nil => rfl
  | cons c cs ih =>
    by_cases hw : c.isWhitespace
    · rcases h : jsTrimRightList cs with _ | ⟨r, rs⟩
      · have hall : cs.all Char.isWhitespace := (jsTrimRightList_eq_nil_iff cs).mp h
        have hleft : jsTrimLeftList cs = [] := (jsTrimLeftList_eq_nil_iff cs).mpr hall
        simp [jsTrimRightList, jsTrimLeftList, h, hw, hleft]
      · rw [h] at ih
        simp only [jsTrimRightList, h, jsTrimLeftList, hw, if_true, ite_true]
        exact ih
    · rcases h : jsTrimRightList cs with _ | ⟨r, rs⟩
      · simp [jsTrimRightList, jsTrimLeftList, h, hw]
      · simp [jsTrimRightList, jsTrimLeftList, h, hw]

/-- String version: left trim is idempotent. -/
theorem jsTrimLeft_idem (s : String) : jsTrimLeft (jsTrimLeft s) = jsTrimLeft s := by
  unfold jsTrimLeft
  rw [jsTrimLeftList_idem]

/-- String version: right trim is idempotent. -/
theorem jsTrimRight_idem (s : String) : jsTrimRight (jsTrimRight s) = jsTrimRight s := by
  unfold jsTrimRight
  rw [jsTrimRightList_idem]

/-- String version: the two end trims commute. -/
theorem jsTrimLeft_jsTrimRight_comm (s : String) :
    jsTrimLeft (jsTrimRight s) = jsTrimRight (jsTrimLeft s) := by
  unfold jsTrimLeft jsTrimRight
  rw [jsTrimLeftList_jsTrimRightList_comm]

/-- Replacing a body then reading it back gives the body. -/
theorem CmdW.body_withBody : ∀ (e : CmdW) (b : CBodyW), (e.withBody b).body = b
  | CmdW.mk _ _ _, _ => rfl

/-- Replacing a body keeps the kind. -/
theorem CmdW.ctype_withBody : ∀ (e : CmdW) (b : CBodyW), (e.withBody b).ctype = e.ctype
  | CmdW.mk _ _ _, _ => rfl

/-- Replacing a body with the own body is the identity. -/
theorem CmdW.withBody_body_eta : ∀ (e : CmdW), e.withBody e.body = e
  | CmdW.mk _ _ _ => rfl

/-- Two body replacements collapse to the last. -/
theorem CmdW.withBody_withBody : ∀ (e : CmdW) (b1 b2 : CBodyW),
    (e.withBody b1).withBody b2 = e.withBody b2
  | CmdW.mk _ _ _, _, _ => rfl

/-- The effective flow ignores the body. -/
theorem flowTypeOf_withBody (defs : String → Option FlowE) :
    ∀ (e : CmdW) (b : CBodyW), flowTypeOf defs (e.withBody b) = flowTypeOf defs e
  | CmdW.mk _ _ _, _ => rfl

/-- The effective flow of two nodes sharing a tag agrees. -/
theorem flowTypeOf_mk_body (defs : String → Option FlowE) (t t2 : CmdTypeE)
    (tg : String) (b b2 : CBodyW) :
    flowTypeOf defs (CmdW.mk t tg b) = flowTypeOf defs (CmdW.mk t2 tg b2) := rfl

/-- Pointwise predicate over a cons body array. -/
theorem CmdListW.allP_cons {P : CmdW → Prop} {c : CmdW} {l : CmdListW} :
    CmdListW.AllP P (CmdListW.cons c l) ↔ (P c ∧ CmdListW.AllP P l) := Iff.rfl

/-- Under a table that assigns no tag the none flow, no node has the
none flow. -/
theorem flowNotNone (defs : String → Option FlowE)
    (hN : ∀ tag, defs tag ≠ some FlowE.noneFlow) :
    ∀ (e : CmdW), flowTypeOf defs e ≠ FlowE.noneFlow
  | CmdW.mk t tg b => by
    unfold flowTypeOf
    by_cases htg : (tg == "") = true
    · simp [CmdW.tag, htg]
    · rcases hd : defs tg with _ | f
      · simp [CmdW.tag, htg, hd]
      · have hf : f ≠ FlowE.noneFlow := by
          intro hq
          exact hN tg (by rw [hd, hq])
        simp [CmdW.tag, htg, hd]
        exact hf

/-- The parts of the no-block test on one node. -/
theorem noBlockC_parts (defs : String → Option FlowE) (t : CmdTypeE) (tg : String)
    (b : CBodyW) (h : noBlockC defs (CmdW.mk t tg b) = true) :
    flowTypeOf defs (CmdW.mk t tg b) ≠ FlowE.block ∧ noBlockB defs b = true := by
  rw [noBlockC] at h
  obtain ⟨h1, h2⟩ := Bool.and_eq_true _ _ |>.mp h
  exact ⟨by simpa using h1, h2⟩

/-- A node whose flow is neither block nor none and whose body is a
string is left fixed by the whitespace pass. -/
theorem stable_of_str (defs : String → Option FlowE)
    (hN : ∀ tag, defs tag ≠ some FlowE.noneFlow) :
    ∀ (e : CmdW) (s : String), flowTypeOf defs e ≠ FlowE.block →
      StableW defs (e.withBody (CBodyW.str s))
  | CmdW.mk t tg b, s, hb => by
    refine ⟨by rw [flowTypeOf_withBody]; exact hb, by rw [flowTypeOf_withBody]; exact flowNotNone defs hN _, ?_⟩
    intro ctx2
    rw [CmdW.body_withBody]
    have hb2 : flowTypeOf defs (CmdW.mk t tg (CBodyW.str s)) ≠ FlowE.block := by
      rw [flowTypeOf_mk_body defs t t tg (CBodyW.str s) b]
      exact hb
    have hn2 : flowTypeOf defs (CmdW.mk t tg (CBodyW.str s)) ≠ FlowE.noneFlow :=
      flowNotNone defs hN _
    rcases hF : flowTypeOf defs (CmdW.mk t tg (CBodyW.str s)) with _ | _ | _ | _ | _
    · simp only [CmdW.withBody, processWhitespace, hF]
    · exact absurd hF hb2
    · simp only [CmdW.withBody, processWhitespace, hF]
    · simp only [CmdW.withBody, processWhitespace, hF]
    · exact absurd hF hn2

/-- A node whose flow is neither block nor none and whose body is absent
is left fixed by the whitespace pass. -/
theorem stable_of_undef (defs : String → Option FlowE)
    (hN : ∀ tag, defs tag ≠ some FlowE.noneFlow) :
    ∀ (e : CmdW), flowTypeOf defs e ≠ FlowE.block →
      StableW defs (e.withBody CBodyW.undef)
  | CmdW.mk t tg b, hb => by
    refine ⟨by rw [flowTypeOf_withBody]; exact hb, by rw [flowTypeOf_withBody]; exact flowNotNone defs hN _, ?_⟩
    intro ctx2
    rw [CmdW.body_withBody]
    have hb2 : flowTypeOf defs (CmdW.mk t tg CBodyW.undef) ≠ FlowE.block := by
      rw [flowTypeOf_mk_body defs t t tg CBodyW.undef b]
      exact hb
    have hn2 : flowTypeOf defs (CmdW.mk t tg CBodyW.undef) ≠ FlowE.noneFlow :=
      flowNotNone defs hN _
    rcases hF : flowTypeOf defs (CmdW.mk t tg CBodyW.undef) with _ | _ | _ | _ | _
    · simp only [CmdW.withBody, processWhitespace, hF]
    · exact absurd hF hb2
    · simp only [CmdW.withBody, processWhitespace, hF]
    · simp only [CmdW.withBody, processWhitespace, hF]
    · exact absurd hF hn2

/-- The trailing trim of a nonempty array is a nonempty array. -/
theorem locTrimLast_cons_shape : ∀ (d : CmdW) (r : CmdListW),
    ∃ x y, locTrimLast (CmdListW.cons d r) = CmdListW.cons x y
  | d, CmdListW.nil => by
    rcases hb : (d.ctype == CmdTypeE.text) with _ | _
    · exact ⟨d, CmdListW.nil, by simp [locTrimLast, hb]⟩
    · exact ⟨d.withBody (CBodyW.str (jsTrimRight d.body.asString)), CmdListW.nil,
        by simp [locTrimLast, hb]⟩
  | d, CmdListW.cons e r2 => by
    exact ⟨d, locTrimLast (CmdListW.cons e r2), locTrimLast_cons_cons d e r2⟩

/-- The leading trim is idempotent. -/
theorem locTrimFirst_locTrimFirst : ∀ (m : CmdListW),
    locTrimFirst (locTrimFirst m) = locTrimFirst m
  | CmdListW.nil => rfl
  | CmdListW.cons first rest => by
    rcases hb : (first.ctype == CmdTypeE.text) with _ | _
    · simp [locTrimFirst, hb]
    · have h1 : locTrimFirst (CmdListW.cons first rest) =
          CmdListW.cons (first.withBody (CBodyW.str (jsTrimLeft first.body.asString))) rest := by
        simp [locTrimFirst, hb]
      rw [h1]
      have hb2 : ((first.withBody (CBodyW.str (jsTrimLeft first.body.asString))).ctype ==
          CmdTypeE.text) = true := by
        rw [CmdW.ctype_withBody]
        exact hb
      simp [locTrimFirst, hb2, CmdW.withBody_withBody, CmdW.body_withBody, CBodyW.asString,
        jsTrimLeft_idem]

/-- The trailing trim is idempotent. -/
theorem locTrimLast_locTrimLast : ∀ (m : CmdListW),
    locTrimLast (locTrimLast m) = locTrimLast m
  | CmdListW.nil => rfl
  | CmdListW.cons c CmdListW.nil => by
    rcases hb : (c.ctype == CmdTypeE.text) with _ | _
    · simp [locTrimLast, hb]
    · have h1 : locTrimLast (CmdListW.cons c CmdListW.nil) =
          CmdListW.cons (c.withBody (CBodyW.str (jsTrimRight c.body.asString))) CmdListW.nil := by
        simp [locTrimLast, hb]
      rw [h1]
      have hb2 : ((c.withBody (CBodyW.str (jsTrimRight c.body.asString))).ctype ==
          CmdTypeE.text) = true := by
        rw [CmdW.ctype_withBody]
        exact hb
      simp [locTrimLast, hb2, CmdW.withBody_withBody, CmdW.body_withBody, CBodyW.asString,
        jsTrimRight_idem]
  | CmdListW.cons c (CmdListW.cons d r) => by
    rw [locTrimLast_cons_cons]
    obtain ⟨x, y, hxy⟩ := locTrimLast_cons_shape d r
    rw [hxy, locTrimLast_cons_cons, ← hxy, locTrimLast_locTrimLast (CmdListW.cons d r)]

/-- The two boundary trims commute. -/
theorem locTrimFirst_locTrimLast_comm : ∀ (m : CmdListW),
    locTrimFirst (locTrimLast m) = locTrimLast (locTrimFirst m)
  | CmdListW.nil => rfl
  | CmdListW.cons c CmdListW.nil => by
    rcases hb : (c.ctype == CmdTypeE.text) with _ | _
    · simp [locTrimFirst, locTrimLast, hb]
    · have h1 : locTrimLast (CmdListW.cons c CmdListW.nil) =
          CmdListW.cons (c.withBody (CBodyW.str (jsTrimRight c.body.asString))) CmdListW.nil := by
        simp [locTrimLast, hb]
      have h2 : locTrimFirst (CmdListW.cons c CmdListW.nil) =
          CmdListW.cons (c.withBody (CBodyW.str (jsTrimLeft c.body.asString))) CmdListW.nil := by
        simp [locTrimFirst, hb]
      rw [h1, h2]
      have hbR : ((c.withBody (CBodyW.str (jsTrimRight c.body.asString))).ctype ==
          CmdTypeE.text) = true := by
        rw [CmdW.ctype_withBody]
        exact hb
      have hbL : ((c.withBody (CBodyW.str (jsTrimLeft c.body.asString))).ctype ==
          CmdTypeE.text) = true := by
        rw [CmdW.ctype_withBody]
        exact hb
      simp only [locTrimFirst, locTrimLast, CmdW.withBody_withBody, CmdW.body_withBody,
        CmdW.ctype_withBody]
      have hct : c.ctype = CmdTypeE.text := eq_of_beq hb
      simp [hct, CBodyW.asString, jsTrimLeft_jsTrimRight_comm]
  | CmdListW.cons c (CmdListW.cons d r) => by
    rw [locTrimLast_cons_cons]
    obtain ⟨x, y, hxy⟩ := locTrimLast_cons_shape d r
    rcases hb : (c.ctype == CmdTypeE.text) with _ | _
    · simp [locTrimFirst, hb, locTrimLast_cons_cons, hxy]
    · rw [hxy]
      simp only [locTrimFirst, hb, if_true]
      rw [locTrimLast_cons_cons, hxy]

/-- The leading trim keeps every element of an all-stable array stable. -/
theorem allP_locTrimFirst (defs : String → Option FlowE)
    (hN : ∀ tag, defs tag ≠ some FlowE.noneFlow) :
    ∀ (m : CmdListW), CmdListW.AllP (StableW defs) m →
      CmdListW.AllP (StableW defs) (locTrimFirst m)
  | CmdListW.nil, h => h
  | CmdListW.cons first rest, h => by
    obtain ⟨hf, hrest⟩ := CmdListW.allP_cons.mp h
    rcases hb : (first.ctype == CmdTypeE.text) with _ | _
    · have h1 : locTrimFirst (CmdListW.cons first rest) = CmdListW.cons first rest := by
        simp [locTrimFirst, hb]
      rw [h1]
      exact h
    · have h1 : locTrimFirst (CmdListW.cons first rest) =
          CmdListW.cons (first.withBody (CBodyW.str (jsTrimLeft first.body.asString))) rest := by
        simp [locTrimFirst, hb]
      rw [h1]
      exact CmdListW.allP_cons.mpr ⟨stable_of_str defs hN first _ hf.1, hrest⟩

/-- The trailing trim keeps every element of an all-stable array stable. -/
theorem allP_locTrimLast (defs : String → Option FlowE)
    (hN : ∀ tag, defs tag ≠ some FlowE.noneFlow) :
    ∀ (m : CmdListW), CmdListW.AllP (StableW defs) m →
      CmdListW.AllP (StableW defs) (locTrimLast m)
  | CmdListW.nil, h => h
  | CmdListW.cons c CmdListW.nil, h => by
    obtain ⟨hc, _⟩ := CmdListW.allP_cons.mp h
    rcases hb : (c.ctype == CmdTypeE.text) with _ | _
    · have h1 : locTrimLast (CmdListW.cons c CmdListW.nil) = CmdListW.cons c CmdListW.nil := by
        simp [locTrimLast, hb]
      rw [h1]
      exact h
    · have h1 : locTrimLast (CmdListW.cons c CmdListW.nil) =
          CmdListW.cons (c.withBody (CBodyW.str (jsTrimRight c.body.asString))) CmdListW.nil := by
        simp [locTrimLast, hb]
      rw [h1]
      exact CmdListW.allP_cons.mpr ⟨stable_of_str defs hN c _ hc.1, trivial⟩
  | CmdListW.cons c (CmdListW.cons d r), h => by
    obtain ⟨hc, hrest⟩ := CmdListW.allP_cons.mp h
    rw [locTrimLast_cons_cons]
    exact CmdListW.allP_cons.mpr ⟨hc, allP_locTrimLast defs hN (CmdListW.cons d r) hrest⟩

/-- The inline child map fixes an array of stable elements. -/
theorem mapChildrenFlow_fixed (defs : String → Option FlowE) :
    ∀ (m : CmdListW) (ctx : WhitespaceContextE) (pb : CmdListW) (i : Nat),
      CmdListW.AllP (StableW defs) m → mapChildrenFlow defs ctx pb i m = m
  | CmdListW.nil, _, _, _, _ => rfl
  | CmdListW.cons c rest, ctx, pb, i, h => by
    obtain ⟨hc, hrest⟩ := CmdListW.allP_cons.mp h
    show CmdListW.cons
        (c.withBody (processWhitespace defs c (createChildContext ctx i pb)))
        (mapChildrenFlow defs ctx pb (i + 1) rest) = CmdListW.cons c rest
    rw [hc.2.2, CmdW.withBody_body_eta, mapChildrenFlow_fixed defs rest ctx pb (i + 1) hrest]

/-- The structured child walk fixes an array whose elements it keeps. -/
theorem structuredChildren_fixed (defs : String → Option FlowE) :
    ∀ (m : CmdListW) (ctx : WhitespaceContextE) (pb : CmdListW) (i : Nat),
      CmdListW.AllP (StructOkW defs) m → structuredChildren defs ctx pb i m = m
  | CmdListW.nil, _, _, _, _ => rfl
  | CmdListW.cons c rest, ctx, pb, i, h => by
    obtain ⟨hc, hrest⟩ := CmdListW.allP_cons.mp h
    rcases hc with ⟨htext, htrim⟩ | ⟨hnot, hstab⟩
    · have hbt : (c.ctype == CmdTypeE.text) = true := by
        rw [htext]
        rfl
      have hne : (jsTrim c.body.asString != "") = true := bne_iff_ne.mpr htrim
      show (if c.ctype == CmdTypeE.text then
          if jsTrim c.body.asString != "" then
            CmdListW.cons c (structuredChildren defs ctx pb (i + 1) rest)
          else structuredChildren defs ctx pb (i + 1) rest
        else
          CmdListW.cons (c.withBody (processWhitespace defs c (createChildContext ctx i pb)))
            (structuredChildren defs ctx pb (i + 1) rest)) = CmdListW.cons c rest
      rw [hbt, hne]
      simp only [if_true]
      rw [structuredChildren_fixed defs rest ctx pb (i + 1) hrest]
    · have hbt : (c.ctype == CmdTypeE.text) = false := beq_eq_false_iff_ne.mpr hnot
      show (if c.ctype == CmdTypeE.text then
          if jsTrim c.body.asString != "" then
            CmdListW.cons c (structuredChildren defs ctx pb (i + 1) rest)
          else structuredChildren defs ctx pb (i + 1) rest
        else
          CmdListW.cons (c.withBody (processWhitespace defs c (createChildContext ctx i pb)))
            (structuredChildren defs ctx pb (i + 1) rest)) = CmdListW.cons c rest
      rw [hbt]
      simp only [Bool.false_eq_true, if_false]
      rw [hstab.2.2, CmdW.withBody_body_eta, structuredChildren_fixed defs rest ctx pb (i + 1) hrest]

mutual
/-- Processing any node of a tree without block flows yields a node the
pass leaves fixed afterwards. -/
theorem processStableA (defs : String → Option FlowE)
    (hN : ∀ tag, defs tag ≠ some FlowE.noneFlow) :
    ∀ (cmd : CmdW) (ctx : WhitespaceContextE), noBlockC defs cmd = true →
      StableW defs (cmd.withBody (processWhitespace defs cmd ctx))
  | CmdW.mk t tg CBodyW.undef, ctx, hnb => by
    obtain ⟨hflow, _⟩ := noBlockC_parts defs t tg CBodyW.undef hnb
    have hX : processWhitespace defs (CmdW.mk t tg CBodyW.undef) ctx = CBodyW.undef := by
      rcases hF : flowTypeOf defs (CmdW.mk t tg CBodyW.undef) with _ | _ | _ | _ | _
      · simp only [processWhitespace, hF]
      · exact absurd hF hflow
      · simp only [processWhitespace, hF]
      · simp only [processWhitespace, hF]
      · exact absurd hF (flowNotNone defs hN _)
    rw [hX]
    exact stable_of_undef defs hN _ hflow
  | CmdW.mk t tg (CBodyW.str s), ctx, hnb => by
    obtain ⟨hflow, _⟩ := noBlockC_parts defs t tg (CBodyW.str s) hnb
    have hX : processWhitespace defs (CmdW.mk t tg (CBodyW.str s)) ctx = CBodyW.str s := by
      rcases hF : flowTypeOf defs (CmdW.mk t tg (CBodyW.str s)) with _ | _ | _ | _ | _
      · simp only [processWhitespace, hF]
      · exact absurd hF hflow
      · simp only [processWhitespace, hF]
      · simp only [processWhitespace, hF]
      · exact absurd hF (flowNotNone defs hN _)
    rw [hX]
    exact stable_of_str defs hN _ s hflow
  | CmdW.mk t tg (CBodyW.arr l), ctx, hnb => by
    obtain ⟨hflow, hbody⟩ := noBlockC_parts defs t tg (CBodyW.arr l) hnb
    have hl : noBlockL defs l = true := hbody
    rcases hF : flowTypeOf defs (CmdW.mk t tg (CBodyW.arr l)) with _ | _ | _ | _ | _
    · have hX : processWhitespace defs (CmdW.mk t tg (CBodyW.arr l)) ctx =
          CBodyW.arr (mapChildrenFlow defs ctx l 0 l) := by
        simp only [processWhitespace, hF]
      rw [hX]
      have hAll : CmdListW.AllP (StableW defs) (mapChildrenFlow defs ctx l 0 l) :=
        mapAllStable defs hN l ctx l 0 hl
      refine ⟨by rw [flowTypeOf_withBody]; exact hflow,
        by rw [flowTypeOf_withBody]; exact flowNotNone defs hN _, ?_⟩
      intro ctx2
      rw [CmdW.body_withBody]
      have hF2 : flowTypeOf defs
          (CmdW.mk t tg (CBodyW.arr (mapChildrenFlow defs ctx l 0 l))) = FlowE.inline := hF
      simp only [CmdW.withBody]
      simp only [processWhitespace, hF2]
      rw [mapChildrenFlow_fixed defs _ ctx2 _ 0 hAll]
    · exact absurd hF hflow
    · have hX : processWhitespace defs (CmdW.mk t tg (CBodyW.arr l)) ctx =
          CBodyW.arr (structuredChildren defs ctx l 0 l) := by
        simp only [processWhitespace, hF]
      rw [hX]
      have hAll : CmdListW.AllP (StructOkW defs) (structuredChildren defs ctx l 0 l) :=
        structAllOk defs hN l ctx l 0 hl
      refine ⟨by rw [flowTypeOf_withBody]; exact hflow,
        by rw [flowTypeOf_withBody]; exact flowNotNone defs hN _, ?_⟩
      intro ctx2
      rw [CmdW.body_withBody]
      have hF2 : flowTypeOf defs
          (CmdW.mk t tg (CBodyW.arr (structuredChildren defs ctx l 0 l))) = FlowE.structured := hF
      simp only [CmdW.withBody]
      simp only [processWhitespace, hF2]
      rw [structuredChildren_fixed defs _ ctx2 _ 0 hAll]
    · have hX : processWhitespace defs (CmdW.mk t tg (CBodyW.arr l)) ctx =
          CBodyW.arr (locTrimLast (locTrimFirst (mapChildrenFlow defs ctx l 0 l))) := by
        simp only [processWhitespace, hF]
      rw [hX]
      have hAll : CmdListW.AllP (StableW defs) (mapChildrenFlow defs ctx l 0 l) :=
        mapAllStable defs hN l ctx l 0 hl
      have hAllT : CmdListW.AllP (StableW defs)
          (locTrimLast (locTrimFirst (mapChildrenFlow defs ctx l 0 l))) :=
        allP_locTrimLast defs hN _ (allP_locTrimFirst defs hN _ hAll)
      refine ⟨by rw [flowTypeOf_withBody]; exact hflow,
        by rw [flowTypeOf_withBody]; exact flowNotNone defs hN _, ?_⟩
      intro ctx2
      rw [CmdW.body_withBody]
      have hF2 : flowTypeOf defs (CmdW.mk t tg (CBodyW.arr
          (locTrimLast (locTrimFirst (mapChildrenFlow defs ctx l 0 l))))) = FlowE.location := hF
      simp only [CmdW.withBody]
      simp only [processWhitespace, hF2]
      rw [mapChildrenFlow_fixed defs _ ctx2 _ 0 hAllT]
      rw [locTrimFirst_locTrimLast_comm, locTrimFirst_locTrimFirst, locTrimLast_locTrimLast]
    · exact absurd hF (flowNotNone defs hN _)

/-- The inline child map over a block-free array yields stable elements. -/
theorem mapAllStable (defs : String → Option FlowE)
    (hN : ∀ tag, defs tag ≠ some FlowE.noneFlow) :
    ∀ (m : CmdListW) (ctx : WhitespaceContextE) (pb : CmdListW) (i : Nat),
      noBlockL defs m = true → CmdListW.AllP (StableW defs) (mapChildrenFlow defs ctx pb i m)
  | CmdListW.nil, _, _, _, _ => trivial
  | CmdListW.cons c rest, ctx, pb, i, h => by
    have h2 : (noBlockC defs c && noBlockL defs rest) = true := h
    obtain ⟨hc, hrest⟩ := Bool.and_eq_true _ _ |>.mp h2
    show CmdListW.AllP (StableW defs)
      (CmdListW.cons (c.withBody (processWhitespace defs c (createChildContext ctx i pb)))
        (mapChildrenFlow defs ctx pb (i + 1) rest))
    exact CmdListW.allP_cons.mpr ⟨processStableA defs hN c (createChildContext ctx i pb) hc,
      mapAllStable defs hN rest ctx pb (i + 1) hrest⟩

/-- The structured child walk over a block-free array keeps only nodes it
would keep again. -/
theorem structAllOk (defs : String → Option FlowE)
    (hN : ∀ tag, defs tag ≠ some FlowE.noneFlow) :
    ∀ (m : CmdListW) (ctx : WhitespaceContextE) (pb : CmdListW) (i : Nat),
      noBlockL defs m = true → CmdListW.AllP (StructOkW defs) (structuredChildren defs ctx pb i m)
  | CmdListW.nil, _, _, _, _ => trivial
  | CmdListW.cons c rest, ctx, pb, i, h => by
    have h2 : (noBlockC defs c && noBlockL defs rest) = true := h
    obtain ⟨hc, hrest⟩ := Bool.and_eq_true _ _ |>.mp h2
    show CmdListW.AllP (StructOkW defs)
      (if c.ctype == CmdTypeE.text then
        if jsTrim c.body.asString != "" then
          CmdListW.cons c (structuredChildren defs ctx pb (i + 1) rest)
        else structuredChildren defs ctx pb (i + 1) rest
      else
        CmdListW.cons (c.withBody (processWhitespace defs c (createChildContext ctx i pb)))
          (structuredChildren defs ctx pb (i + 1) rest))
    rcases hbt : (c.ctype == CmdTypeE.text) with _ | _
    · simp only [Bool.false_eq_true, if_false]
      refine CmdListW.allP_cons.mpr ⟨Or.inr ⟨?_, processStableA defs hN c _ hc⟩,
        structAllOk defs hN rest ctx pb (i + 1) hrest⟩
      rw [CmdW.ctype_withBody]
      exact beq_eq_false_iff_ne.mp hbt
    · rcases hne : (jsTrim c.body.asString != "") with _ | _
      · simp only [Bool.false_eq_true, if_false, if_true]
        exact structAllOk defs hN rest ctx pb (i + 1) hrest
      · simp only [if_true]
        exact CmdListW.allP_cons.mpr ⟨Or.inl ⟨eq_of_beq hbt, bne_iff_ne.mp hne⟩,
          structAllOk defs hN rest ctx pb (i + 1) hrest⟩
end

/-- A successful assoc lookup names a pair of the list. -/
theorem lookup_mem_pairs {α β : Type} [BEq α] :
    ∀ (l : List (α × β)) (a : α) (b : β), List.lookup a l = some b → ∃ p ∈ l, p.2 = b
  | [], _, _, h => by simp [List.lookup] at h
  | (a1, b1) :: rest, a, b, h => by
    rw [List.lookup] at h
    rcases hq : (a == a1) with _ | _
    · rw [hq] at h
      obtain ⟨p, hp, hp2⟩ := lookup_mem_pairs rest a b h
      exact ⟨p, List.mem_cons_of_mem _ hp, hp2⟩
    · rw [hq] at h
      simp only [Option.some.injEq] at h
      exact ⟨(a1, b1), List.mem_cons_self _ _, h⟩

/-- No tag of the definitions table carries the none flow: the table
declares location, inline, structured and block flows only. -/
theorem definitionsFlow_noneFree : ∀ tag, definitionsFlow tag ≠ some FlowE.noneFlow := by
  intro tag h
  unfold definitionsFlow at h
  rcases hq : List.lookup tag definitionsFlowTable with _ | ob
  · rw [hq] at h
    simp [Option.join] at h
  · rw [hq] at h
    have hob : ob = some FlowE.noneFlow := by simpa [Option.join] using h
    obtain ⟨p, hp, hp2⟩ := lookup_mem_pairs definitionsFlowTable tag ob hq
    have hall : ∀ p ∈ definitionsFlowTable, p.2 ≠ some FlowE.noneFlow := by decide
    exact hall p hp (hp2.trans hob)

/-- The per-entity normalizer is idempotent on a block-free tree. -/
theorem manageWhitespaceCmd_idem (defs : String → Option FlowE)
    (hN : ∀ tag, defs tag ≠ some FlowE.noneFlow) (cmd : CmdW)
    (hnb : noBlockC defs cmd = true) :
    manageWhitespaceCmd defs (manageWhitespaceCmd defs cmd) = manageWhitespaceCmd defs cmd := by
  unfold manageWhitespaceCmd
  rcases ht : cbodyTruthy cmd.body with _ | _
  · simp [ht]
  · simp only [ht, if_true]
    have hS : StableW defs (cmd.withBody (processWhitespace defs cmd initialWhitespaceContext)) :=
      processStableA defs hN cmd initialWhitespaceContext hnb
    rcases ht2 : cbodyTruthy
        (cmd.withBody (processWhitespace defs cmd initialWhitespaceContext)).body with _ | _
    · simp [ht2]
    · simp only [ht2, if_true]
      rw [hS.2.2 initialWhitespaceContext, CmdW.withBody_body_eta]

/-- C1 (amended).  As stated the claim fails: the block flow handler of
the Normalizer injects paragraph separator text nodes around a non-first
or non-last block child, so a second pass over a tree holding nested
block-flow macros can inject separators the first pass did not (see the
counterexample).  The amended statement holds: over a definitions table
without none flows, running manageWhitespace a second time on the output
of manageWhitespace returns that output unchanged for every entity map
whose trees contain no block-flow node. -/
theorem c1_normalizer_idempotent_on_block_free_trees (defs : String → Option FlowE)
    (hN : ∀ tag, defs tag ≠ some FlowE.noneFlow) :
    ∀ (cmds : List (String × CmdW)), (∀ kv ∈ cmds, noBlockC defs kv.2 = true) →
      manageWhitespace defs (manageWhitespace defs cmds) = manageWhitespace defs cmds := by
  intro cmds
  induction cmds with
  | nil => intro _; rfl
  | cons kv rest ih =>
    intro hnb
    have hkv := hnb kv (List.mem_cons_self _ _)
    have hrest : ∀ kv2 ∈ rest, noBlockC defs kv2.2 = true :=
      fun kv2 h2 => hnb kv2 (List.mem_cons_of_mem _ h2)
    show (kv.1, manageWhitespaceCmd defs (manageWhitespaceCmd defs kv.2)) ::
        manageWhitespace defs (manageWhitespace defs rest) =
      (kv.1, manageWhitespaceCmd defs kv.2) :: manageWhitespace defs rest
    rw [manageWhitespaceCmd_idem defs hN kv.2 hkv, ih hrest]

/-- Witness for the amended C1 theorem: the location entity holding an
inline macro and text, normalized under the definitions flow table, is a
fixed point of the second pass. -/
theorem c1_normalizer_idempotent_on_block_free_trees_witness :
    (∀ tag, definitionsFlow tag ≠ some FlowE.noneFlow) ∧
    (∀ kv ∈ [("home", locEx)], noBlockC definitionsFlow kv.2 = true) ∧
    manageWhitespace definitionsFlow (manageWhitespace definitionsFlow [("home", locEx)]) =
      manageWhitespace definitionsFlow [("home", locEx)] :=
  ⟨definitionsFlow_noneFree, by decide,
    c1_normalizer_idempotent_on_block_free_trees definitionsFlow definitionsFlow_noneFree
      [("home", locEx)] (by decide)⟩
